import Mathlib

/-!
Verification of the Capivaras table-session engine (src/server.js).

The server's game state and the operations the claims concern are embedded
shallowly: JavaScript objects become structures, array mutation becomes
functional update, and the two sources of randomness (Fisher-Yates shuffle
and Math.random draws) become explicit parameters constrained exactly as the
code constrains them (a shuffle is a permutation of its input; a draw of
Math.floor(Math.random()*n) is a natural below n).  Presentation-only fields
of the source (card image filenames, display strings inside result records)
are omitted; they are never read by the game logic.
-/

namespace Capivaras

/-- The four lily colors appearing on cards. -/
inductive Lily
  | Y
  | R
  | W
  | B
deriving DecidableEq, Repr, Fintype

/-- A card: capivara count, up to two lily colors, bird flag.
The img and fallback fields of mkCard in server.js are static art filenames
derived from these three fields and are never read by the game logic. -/
structure Card where
  cap : Nat
  lilies : List Lily
  bird : Bool
deriving DecidableEq, Repr

def mkCard (cap : Nat) (lilies : List Lily) (bird : Bool) : Card :=
  { cap := cap, lilies := lilies, bird := bird }

/-- The fixed 36-card deck (BASE_DECK in server.js). -/
def BASE_DECK : List Card := [
  -- 1 cap (6)
  mkCard 1 [] false, mkCard 1 [] false,
  mkCard 1 [.R] false, mkCard 1 [.R] false,
  mkCard 1 [.B, .W] false,
  mkCard 1 [.W] true,
  -- 2 cap (13)
  mkCard 2 [] false, mkCard 2 [] false, mkCard 2 [] false,
  mkCard 2 [] false, mkCard 2 [] false, mkCard 2 [] false,
  mkCard 2 [.Y] false, mkCard 2 [.Y] false,
  mkCard 2 [.B] false,
  mkCard 2 [.Y] true,
  mkCard 2 [.R] true,
  mkCard 2 [] true, mkCard 2 [] true,
  -- 3 cap (11)
  mkCard 3 [] false, mkCard 3 [] false, mkCard 3 [] false,
  mkCard 3 [] false, mkCard 3 [] false, mkCard 3 [] false,
  mkCard 3 [.Y] false,
  mkCard 3 [.B] false, mkCard 3 [.B] false,
  mkCard 3 [] true, mkCard 3 [] true,
  -- 4 cap (4)
  mkCard 4 [] false, mkCard 4 [] false,
  mkCard 4 [] true, mkCard 4 [] true,
  -- 5 cap (2)
  mkCard 5 [] false,
  mkCard 5 [] true ]

/-- One seat's player record: display name, ordered scored pile, bird-card
count (players entry of newGame in server.js). -/
structure Player where
  name : String
  scored : List Card
  birdCards : Nat
deriving DecidableEq, Repr

instance : Inhabited Player := ⟨{ name := "", scored := [], birdCards := 0 }⟩

/-- Session phase. -/
inductive Phase
  | BETTING
  | REVEAL
  | GAME_OVER
deriving DecidableEq, Repr

/-- A bird-token assignment performed during resolution.  The server also
stores the display names of the seats involved; those are lookups into the
players array and carry no extra information. -/
inductive BirdEvent
  | first (seat : Nat)
  | steal (seat : Nat) (prev : Nat)
deriving DecidableEq, Repr

/-- One entry of computeScores in server.js. -/
structure ScoreEntry where
  name : String
  pts : Nat
  scored : List Card
  lilies : List Lily
  birdCards : Nat
  hasBird : Bool
  allLilies : Bool
deriving DecidableEq, Repr

/-- The result record built by resolveRound.  winners is indexed by table
position (the server uses an object keyed by position; a position absent from
that object is none here).  The server keeps only the last bird-token
assignment in its birdUpdate field; birdEvents records the sequence of
assignments in order, and birdUpdate below recovers the server's field. -/
structure RoundResult where
  bets : List (Option Nat)
  winners : List (Option Nat)
  cards : List Card
  birdEvents : List BirdEvent
deriving DecidableEq, Repr

/-- The server's lastResult.birdUpdate: the last bird-token assignment of the
round, if any (each assignment in resolveRound overwrites the field). -/
def RoundResult.birdUpdate (r : RoundResult) : Option BirdEvent :=
  r.birdEvents.getLast?

/-- The per-session game state (newGame in server.js). -/
structure Game where
  players : List Player
  n : Nat
  deck : List Card
  discard : List Card
  table : List Card
  bets : List (Option Nat)
  birdHolder : Option Nat
  phase : Phase
  deckPass : Nat
  lastResult : Option RoundResult
  isSolo : Bool
  turnGen : Nat
  winnerIdx : Option Nat
  finalScores : Option (List ScoreEntry)
deriving DecidableEq, Repr

/-- newGame(names, isSolo) in server.js.  The shuffled deck is passed in as
sh; the caller constrains it to be a permutation of BASE_DECK.  splice(0, n)
moves the first n cards of the shuffled deck onto the table. -/
def newGame (names : List String) (sh : List Card) (isSolo : Bool) : Game :=
  let n := names.length
  { players := names.map (fun name => { name := name, scored := [], birdCards := 0 }),
    n := n, deck := sh.drop n, discard := [], table := sh.take n,
    bets := List.replicate n none, birdHolder := none,
    phase := .BETTING, deckPass := 0, lastResult := none,
    isSolo := isSolo, turnGen := 0, winnerIdx := none, finalScores := none }

/-- The lily-color set accumulated over a pile of cards, in first-occurrence
order (the JavaScript Set built by computeScores and botChoose). -/
def collectLilies (cards : List Card) : List Lily :=
  cards.foldl (fun acc c => c.lilies.foldl (fun a l => if l ∈ a then a else a ++ [l]) acc) []

/-- Whether a lily collection covers all four distinct colors. -/
def allLiliesOf (ls : List Lily) : Bool :=
  [Lily.Y, Lily.R, Lily.W, Lily.B].all (fun c => ls.contains c)

/-- The entry computeScores builds for seat i with player record p: card
capivara values summed, +5 for holding the bird token, +10 for covering all
four lily colors. -/
def scoreEntry (g : Game) (i : Nat) (p : Player) : ScoreEntry :=
  let pts0 := p.scored.foldl (fun a c => a + c.cap) 0
  let lilies := collectLilies p.scored
  let pts1 := if g.birdHolder = some i then pts0 + 5 else pts0
  let allL := allLiliesOf lilies
  let pts := if allL then pts1 + 10 else pts1
  { name := p.name, pts := pts, scored := p.scored, lilies := lilies,
    birdCards := p.birdCards, hasBird := g.birdHolder == some i, allLilies := allL }

/-- computeScores in server.js: scores are recomputed from the scored piles
each time, never stored incrementally. -/
def computeScores (g : Game) : List ScoreEntry :=
  g.players.enum.map (fun ip => scoreEntry g ip.1 ip.2)

/-- The betCount array of resolveRound, per position: how many seats bid
that position (g.bets.forEach increments betCount at each non-null bid). -/
def betCount (bets : List (Option Nat)) (pos : Nat) : Nat :=
  bets.foldl (fun a b => if b = some pos then a + 1 else a) 0

/-- The betBySeat array of resolveRound, per position: the seat recorded for
that position.  The forEach walks seats in ascending order and overwrites,
so the entry is the last seat whose bid equals the position (none when no
seat bid it). -/
def betBySeat (bets : List (Option Nat)) (pos : Nat) : Option Nat :=
  go bets 0 none
where
  go : List (Option Nat) → Nat → Option Nat → Option Nat
    | [], _, acc => acc
    | b :: rest, i, acc => go rest (i + 1) (if b = some pos then some i else acc)

/-- Accumulator of the per-position forEach of resolveRound. -/
structure ResolveAcc where
  players : List Player
  birdHolder : Option Nat
  winners : List (Option Nat)
  events : List BirdEvent
deriving DecidableEq, Repr

/-- One iteration of the forEach over table positions inside resolveRound.
A position with exactly one bidder awards the card: it is pushed onto the
bidder's scored pile; a bird card additionally increments the winner's bird
count and may assign the bird token (first assignment when no holder,
transfer when a different seat strictly exceeds the current holder's count).
The winners accumulator is extended in position order. -/
def resolveStep (bets : List (Option Nat)) (acc : ResolveAcc) (pc : Nat × Card) : ResolveAcc :=
  let pos := pc.1
  let card := pc.2
  if betCount bets pos = 1 then
    match betBySeat bets pos with
    | none =>
      -- unreachable: a position with exactly one bidder has a recorded seat
      { acc with winners := acc.winners ++ [none] }
    | some seat =>
      let p0 := acc.players.getD seat default
      let p1 := { p0 with scored := p0.scored ++ [card] }
      if card.bird then
        let p2 := { p1 with birdCards := p1.birdCards + 1 }
        let players2 := acc.players.set seat p2
        match acc.birdHolder with
        | none =>
          { players := players2, birdHolder := some seat,
            winners := acc.winners ++ [some seat],
            events := acc.events ++ [.first seat] }
        | some prev =>
          if seat ≠ prev ∧ (players2.getD prev default).birdCards < p2.birdCards then
            { players := players2, birdHolder := some seat,
              winners := acc.winners ++ [some seat],
              events := acc.events ++ [.steal seat prev] }
          else
            { players := players2, birdHolder := acc.birdHolder,
              winners := acc.winners ++ [some seat], events := acc.events }
      else
        { players := acc.players.set seat p1, birdHolder := acc.birdHolder,
          winners := acc.winners ++ [some seat], events := acc.events }
  else
    { acc with winners := acc.winners ++ [none] }

/-- resolveRound in server.js (the session-state part; the lobby-level timer
clearing and broadcasting live alongside it and are modelled at the lobby
layer).  After resolving every position, every table card is pushed onto the
discard, the result is recorded, the phase moves to REVEAL and turnGen is
incremented. -/
def resolveRound (g : Game) : Game :=
  let acc0 : ResolveAcc :=
    { players := g.players, birdHolder := g.birdHolder, winners := [], events := [] }
  let acc := g.table.enum.foldl (resolveStep g.bets) acc0
  let result : RoundResult :=
    { bets := g.bets, winners := acc.winners, cards := g.table, birdEvents := acc.events }
  { g with
    players := acc.players,
    birdHolder := acc.birdHolder,
    discard := g.discard ++ g.table,
    lastResult := some result,
    phase := .REVEAL,
    turnGen := g.turnGen + 1 }

/-- checkAllBetsIn in server.js: resolve as soon as the phase is BETTING and
every seat has a bid. -/
def checkAllBetsIn (g : Game) : Game :=
  if g.phase = .BETTING ∧ g.bets.all (fun b => b.isSome) then resolveRound g else g

/-- endGame in server.js: set the phase, cache the final standings computed
by computeScores, and record the winner (first seat attaining the maximum
score; Math.max over a nonempty list of naturals is its greatest element).
turnGen is not touched. -/
def endGame (g : Game) : Game :=
  let g1 := { g with phase := Phase.GAME_OVER }
  let fs := computeScores g1
  let maxPts := (fs.map (fun s => s.pts)).foldl max 0
  let w := fs.findIdx (fun s => s.pts == maxPts)
  { g1 with finalScores := some fs, winnerIdx := some w }

/-- The dealing tail of nextRound: splice n cards from the deck onto the
table, clear the bids, return to BETTING, increment turnGen. -/
def deal (g : Game) : Game :=
  { g with
    table := g.deck.take g.n,
    deck := g.deck.drop g.n,
    bets := List.replicate g.n none,
    lastResult := none,
    phase := .BETTING,
    turnGen := g.turnGen + 1 }

/-- nextRound in server.js.  sh stands for shuffle(g.discard) — the caller
constrains it to a permutation of the discard.  If fewer than n cards remain:
on the first pass the discard is reshuffled into the deck and deckPass
becomes 1; on the second pass the game ends.  If the deck is still short
after the reshuffle the game also ends; otherwise n cards are dealt. -/
def nextRound (g : Game) (sh : List Card) : Game :=
  if g.deck.length < g.n then
    if g.deckPass = 0 then
      -- the reshuffled state (g1 in the source); its seat count equals g.n
      if (g.deck ++ sh).length < g.n then
        endGame { g with deck := g.deck ++ sh, discard := [], deckPass := 1 }
      else deal { g with deck := g.deck ++ sh, discard := [], deckPass := 1 }
    else endGame g
  else deal g

/-- Outbound message kinds distinguished by the claims (only whether a reply
is an ERROR, a RECONNECT_FAIL, or something else matters here). -/
inductive OutMsg
  | gameState
  | errorMsg
  | reconnected
  | reconnectFail
deriving DecidableEq, Repr

/-- The BET branch of handleAction in server.js, at the session level.
gs is findGameSeat(lobby, ls): none models the -1 result (seat absent from
the seat map).  pos models parseInt(msg.position): none is NaN.  A bid
outside BETTING only triggers a GAME_STATE resync; an unparsable or
out-of-range position, a seat without a session index, or an already-filled
bid slot is silently dropped.  A valid bid is stored and checkAllBetsIn runs
(a successful bid broadcasts GAME_STATE to each seat; message multiplicity
is not modelled). -/
def handleBet (g : Game) (gs : Option Nat) (pos : Option Int) : Game × List OutMsg :=
  if g.phase ≠ .BETTING then (g, [.gameState])
  else
    match gs with
    | none => (g, [])
    | some s =>
      match pos with
      | none => (g, [])
      | some p =>
        if p < 0 ∨ (g.n : Int) ≤ p ∨ (g.bets.getD s none).isSome then (g, [])
        else (checkAllBetsIn { g with bets := g.bets.set s (some p.toNat) }, [.gameState])

/-- The session-state effect of a BET message. -/
def betStep (g : Game) (gs : Option Nat) (pos : Option Int) : Game :=
  (handleBet g gs pos).1

/-- The random inputs consumed by one botChoose call: the per-position
symmetric noise terms ((Math.random()-0.5)*12) and whether the 75% branch
picking the top-scored position was taken. -/
structure BotRnd where
  noise : List Int
  topChoice : Bool
deriving DecidableEq, Repr

/-- An entry of the scored candidate list built by botChoose. -/
structure BotScored where
  pos : Nat
  s : Int
deriving DecidableEq, Repr

instance : Inhabited BotScored := ⟨{ pos := 0, s := 0 }⟩

/-- The per-position desirability score computed inside botChoose's map
callback: 10 per capivara, 8 per lily color the bot does not own yet, a bird
bonus of 20 (token unheld), 15 (the bot could overtake the holder) or 4,
minus 30 when the other bot already bid the position, plus the noise term. -/
def botScore (g : Game) (seat : Nat) (rnd : BotRnd) (pc : Nat × Card) : BotScored :=
  let player := g.players.getD seat default
  let myLilies := collectLilies player.scored
  let otherBot := if seat = 1 then g.bets.getD 2 none else g.bets.getD 1 none
  let pos := pc.1
  let card := pc.2
  let base : Int :=
    (card.cap : Int) * 10 + ((card.lilies.filter (fun l => !(myLilies.contains l))).length : Int) * 8
  let b1 := if card.bird then
      base + (match g.birdHolder with
        | none => 20
        | some h =>
          if h ≠ seat ∧ (g.players.getD h default).birdCards ≤ player.birdCards
          then 15 else 4)
    else base
  let b2 := if otherBot = some pos then b1 - 30 else b1
  { pos := pos, s := b2 + rnd.noise.getD pos 0 }

/-- botChoose in server.js: score every table position, sort descending; the
top pick with 75% probability, otherwise the second best. -/
def botChoose (g : Game) (seat : Nat) (rnd : BotRnd) : Nat :=
  let cands := g.table.enum.map (botScore g seat rnd)
  let sorted := cands.mergeSort (fun a b => decide ((b : BotScored).s ≤ (a : BotScored).s))
  if rnd.topChoice then ((sorted.getD 0 default : BotScored)).pos
  else ((sorted.getD (min 1 (sorted.length - 1)) default : BotScored)).pos

/-- The session-state effect of a bot-bid timer firing (the scheduleBots
callback, after its epoch and phase guards): skip if the bot already has a
bid, otherwise store botChoose and run checkAllBetsIn. -/
def botStep (g : Game) (bot : Nat) (rnd : BotRnd) : Game :=
  if (g.bets.getD bot none).isSome then g
  else checkAllBetsIn { g with bets := g.bets.set bot (some (botChoose g bot rnd)) }

/-- The session-state effect of an absent-seat auto-bid timer firing (the
scheduleAutoBeats callback and the identical close-handler timer, after the
epoch and phase guards): skip if the seat already has a bid, otherwise store
the random position r, which stands for Math.floor(Math.random()*g.n) and is
therefore below n, and run checkAllBetsIn. -/
def autoStep (g : Game) (gs : Nat) (r : Nat) : Game :=
  if (g.bets.getD gs none).isSome then g
  else checkAllBetsIn { g with bets := g.bets.set gs (some r) }

/-- One session-level operation of the state machine, with the randomness
made explicit and constrained as the code constrains it.  The hypotheses on
each constructor are the guards under which the server invokes the
corresponding mutation. -/
inductive Step : Game → Game → Prop
  | bet (g : Game) (gs : Option Nat) (pos : Option Int) :
      Step g (betStep g gs pos)
  | bot (g : Game) (bot : Nat) (rnd : BotRnd)
      (hsolo : g.isSolo = true) (hph : g.phase = .BETTING)
      (hb : bot = 1 ∨ bot = 2) :
      Step g (botStep g bot rnd)
  | auto (g : Game) (gs r : Nat)
      (hph : g.phase = .BETTING) (hr : r < g.n) :
      Step g (autoStep g gs r)
  | next (g : Game) (sh : List Card)
      (hph : g.phase = .REVEAL) (hsh : sh.Perm g.discard) :
      Step g (nextRound g sh)

/-- Session states reachable from a new game: newGame over a shuffled deck
and one to six seated players (table capacity is six; the solo table seats
one human and two bots), followed by any sequence of operations. -/
inductive Reachable : Game → Prop
  | init (names : List String) (sh : List Card) (isSolo : Bool)
      (hn : 1 ≤ names.length) (hn6 : names.length ≤ 6)
      (hsh : sh.Perm BASE_DECK) :
      Reachable (newGame names sh isSolo)
  | step {g g' : Game} : Reachable g → Step g g' → Reachable g'

/-- Cards physically held by the session containers (deck, discard, table),
excluding the scored piles. -/
def cardCount (g : Game) : Nat :=
  g.deck.length + g.discard.length + g.table.length

/-- Total size of all scored piles. -/
def scoredTotal (g : Game) : Nat :=
  (g.players.map (fun p => p.scored.length)).sum

/-- The total the specification tracks. -/
def totalCards (g : Game) : Nat :=
  cardCount g + scoredTotal g

/-- The surplus of deck+discard+table over 36 in each phase: during REVEAL
(and a game over reached from it) the resolved table cards have already been
pushed onto the discard while still lying on the table. -/
def phaseExtra (g : Game) : Nat :=
  if g.phase = .BETTING then 0 else g.n

/-! ### List utilities -/

theorem getD_set_self {α : Type _} (l : List α) (i : Nat) (x d : α) (h : i < l.length) :
    (l.set i x).getD i d = x := by
  simp [List.getD, List.getElem?_set_self', List.getElem?_eq_getElem h]

theorem getD_set_ne {α : Type _} (l : List α) {i j : Nat} (x d : α) (h : i ≠ j) :
    (l.set i x).getD j d = l.getD j d := by
  simp [List.getD, List.getElem?_set_ne h]

theorem getElemD_set_self {α : Type _} (l : List α) (i : Nat) (x d : α) (h : i < l.length) :
    ((l.set i x)[i]?).getD d = x := by
  simp [List.getElem?_set_self', List.getElem?_eq_getElem h]

theorem getElemD_set_ne {α : Type _} (l : List α) {i j : Nat} (x d : α) (h : i ≠ j) :
    ((l.set i x)[j]?).getD d = (l[j]?).getD d := by
  rw [List.getElem?_set_ne h]

theorem lt_of_getElem?_eq_some {α : Type _} {l : List α} {i : Nat} {a : α}
    (h : l[i]? = some a) : i < l.length :=
  (List.getElem?_eq_some.mp h).1

/-! ### betCount and betBySeat -/

theorem betCount_go (pos : Nat) (l : List (Option Nat)) :
    ∀ a : Nat, l.foldl (fun a b => if b = some pos then a + 1 else a) a
      = a + l.foldl (fun a b => if b = some pos then a + 1 else a) 0 := by
  induction l with
  | nil => intro a; simp
  | cons b rest ih =>
    intro a
    by_cases hb : b = some pos
    · simp only [List.foldl, hb, ite_true]
      rw [ih (a + 1), ih 1]
      omega
    · simp only [List.foldl, hb, ite_false]
      exact ih a

theorem betCount_cons (b : Option Nat) (l : List (Option Nat)) (pos : Nat) :
    betCount (b :: l) pos = (if b = some pos then 1 else 0) + betCount l pos := by
  unfold betCount
  by_cases hb : b = some pos
  · simp only [List.foldl, hb, ite_true]
    rw [betCount_go]
  · simp only [List.foldl, hb, ite_false]
    omega

theorem mem_le_betCount (l : List (Option Nat)) (pos j : Nat)
    (h : l[j]? = some (some pos)) : 1 ≤ betCount l pos := by
  induction l generalizing j with
  | nil => simp at h
  | cons b rest ih =>
    rw [betCount_cons]
    match j, h with
    | 0, h => simp at h; simp [h]
    | j + 1, h =>
      simp only [List.getElem?_cons_succ] at h
      have := ih j h
      omega

theorem two_le_betCount (l : List (Option Nat)) (pos j k : Nat) (hjk : j < k)
    (hj : l[j]? = some (some pos)) (hk : l[k]? = some (some pos)) :
    2 ≤ betCount l pos := by
  induction l generalizing j k with
  | nil => simp at hj
  | cons b rest ih =>
    rw [betCount_cons]
    match j, hj with
    | 0, hj =>
      simp at hj
      match k, hjk, hk with
      | k + 1, _, hk =>
        simp only [List.getElem?_cons_succ] at hk
        have := mem_le_betCount rest pos k hk
        simp [hj]; omega
    | j + 1, hj =>
      match k, hjk, hk with
      | k + 1, hjk, hk =>
        simp only [List.getElem?_cons_succ] at hj hk
        have := ih j k (by omega) hj hk
        omega

theorem betCount_one_unique (l : List (Option Nat)) (pos j k : Nat)
    (hc : betCount l pos = 1)
    (hj : l[j]? = some (some pos)) (hk : l[k]? = some (some pos)) : j = k := by
  rcases Nat.lt_trichotomy j k with h | h | h
  · have := two_le_betCount l pos j k h hj hk; omega
  · exact h
  · have := two_le_betCount l pos k j h hk hj; omega

theorem betBySeat_go_some (pos : Nat) (l : List (Option Nat)) :
    ∀ (i : Nat) (acc : Option Nat) (s : Nat),
      betBySeat.go pos l i acc = some s →
      acc = some s ∨ ∃ j, l[j]? = some (some pos) ∧ s = i + j := by
  induction l with
  | nil => intro i acc s h; exact Or.inl h
  | cons b rest ih =>
    intro i acc s h
    simp only [betBySeat.go] at h
    by_cases hb : b = some pos
    · simp only [hb, ite_true] at h
      rcases ih (i + 1) _ s h with hacc | ⟨j, hj, hs⟩
      · have hi : i = s := by simpa using hacc
        exact Or.inr ⟨0, by simp [hb], by omega⟩
      · exact Or.inr ⟨j + 1, by simpa using hj, by omega⟩
    · simp only [hb, ite_false] at h
      rcases ih (i + 1) _ s h with hacc | ⟨j, hj, hs⟩
      · exact Or.inl hacc
      · exact Or.inr ⟨j + 1, by simpa using hj, by omega⟩

theorem betBySeat_go_isSome (pos : Nat) (l : List (Option Nat)) :
    ∀ (i : Nat) (acc : Option Nat) (j : Nat), l[j]? = some (some pos) →
      (betBySeat.go pos l i acc).isSome := by
  induction l with
  | nil => intro i acc j h; simp at h
  | cons b rest ih =>
    intro i acc j h
    match j, h with
    | 0, h =>
      simp at h
      simp only [betBySeat.go, h, ite_true, if_pos]
      exact go_any_isSome rest (i + 1) (some i) rfl
    | j + 1, h =>
      simp only [List.getElem?_cons_succ] at h
      exact ih (i + 1) _ j h
where
  go_any_isSome (l : List (Option Nat)) : ∀ (i : Nat) (acc : Option Nat),
      acc.isSome → (betBySeat.go pos l i acc).isSome := by
    induction l with
    | nil => intro i acc h; exact h
    | cons b rest ih =>
      intro i acc h
      simp only [betBySeat.go]
      by_cases hb : b = some pos
      · simp only [hb, ite_true, if_pos]; exact ih (i + 1) _ rfl
      · simp only [hb, ite_false, if_neg]; exact ih (i + 1) _ h

/-- The recorded seat of betBySeat really bid that position. -/
theorem betBySeat_some (bets : List (Option Nat)) (pos s : Nat)
    (h : betBySeat bets pos = some s) : bets[s]? = some (some pos) := by
  unfold betBySeat at h
  rcases betBySeat_go_some pos bets 0 none s h with hacc | ⟨j, hj, hs⟩
  · cases hacc
  · rwa [show s = j by omega]

/-- With exactly one bidder at a position, betBySeat records exactly the seat
that bid it. -/
theorem betBySeat_unique (bets : List (Option Nat)) (pos s : Nat)
    (hc : betCount bets pos = 1) (hs : bets[s]? = some (some pos)) :
    betBySeat bets pos = some s := by
  have hiso := betBySeat_go_isSome pos bets 0 none s hs
  rcases ho : betBySeat bets pos with _ | s'
  · unfold betBySeat at ho; rw [ho] at hiso; simp at hiso
  · have hs' := betBySeat_some bets pos s' ho
    rw [betCount_one_unique bets pos s s' hc hs hs']

/-! ### Resolution analysis -/

/-- The seat awarded a table position: the recorded bidder when the position
has exactly one bidder, nobody otherwise. -/
def awardSeat (bets : List (Option Nat)) (pos : Nat) : Option Nat :=
  if betCount bets pos = 1 then betBySeat bets pos else none

/-- The winners list recorded by the most recent resolution. -/
def winnersOf (g : Game) : List (Option Nat) :=
  match g.lastResult with
  | some r => r.winners
  | none => []

/-- The cards a seat wins in a resolution, in table order. -/
def wonCards (g : Game) (s : Nat) : List Card :=
  (g.table.enum.filter (fun pc => awardSeat g.bets pc.1 == some s)).map (fun pc => pc.2)

theorem awardSeat_some (bets : List (Option Nat)) (pos s : Nat)
    (h : awardSeat bets pos = some s) :
    betCount bets pos = 1 ∧ bets[s]? = some (some pos) := by
  unfold awardSeat at h
  by_cases hc : betCount bets pos = 1
  · simp only [hc, ite_true] at h
    exact ⟨hc, betBySeat_some bets pos s h⟩
  · simp [hc] at h

theorem awardSeat_eq_some (bets : List (Option Nat)) (pos s : Nat)
    (hc : betCount bets pos = 1) (hs : bets[s]? = some (some pos)) :
    awardSeat bets pos = some s := by
  unfold awardSeat
  simp only [hc, ite_true]
  exact betBySeat_unique bets pos s hc hs

theorem resolveStep_winners (bets : List (Option Nat)) (acc : ResolveAcc) (pc : Nat × Card) :
    (resolveStep bets acc pc).winners = acc.winners ++ [awardSeat bets pc.1] := by
  unfold resolveStep awardSeat
  by_cases hc : betCount bets pc.1 = 1
  · simp only [hc, ite_true]
    rcases hb : betBySeat bets pc.1 with _ | seat
    · rfl
    · cases hbird : pc.2.bird
      · simp only [Bool.false_eq_true, ite_false]
      · simp only [ite_true]
        cases acc.birdHolder
        · rfl
        · split <;> first
            | rfl
            | (split <;> rfl)
  · simp only [hc, ite_false]

theorem resolveStep_players_length (bets : List (Option Nat)) (acc : ResolveAcc)
    (pc : Nat × Card) :
    (resolveStep bets acc pc).players.length = acc.players.length := by
  unfold resolveStep
  by_cases hc : betCount bets pc.1 = 1
  · simp only [hc, ite_true]
    rcases hb : betBySeat bets pc.1 with _ | seat
    · rfl
    · cases hbird : pc.2.bird
      · simp only [Bool.false_eq_true, ite_false, List.length_set]
      · simp only [ite_true]
        cases acc.birdHolder
        · simp [List.length_set]
        · split <;> (try split) <;> simp [List.length_set]
  · simp only [hc, ite_false]

theorem resolveStep_scored (bets : List (Option Nat)) (acc : ResolveAcc) (pc : Nat × Card)
    (hlen : bets.length ≤ acc.players.length) (s : Nat) :
    ((resolveStep bets acc pc).players.getD s default).scored
      = (acc.players.getD s default).scored
        ++ (if awardSeat bets pc.1 = some s then [pc.2] else []) := by
  have hwin : ∀ seat : Nat, betBySeat bets pc.1 = some seat → seat < acc.players.length := by
    intro seat hseat
    have hmem := betBySeat_some bets pc.1 seat hseat
    have hlt : seat < bets.length := lt_of_getElem?_eq_some hmem
    omega
  have haw : awardSeat bets pc.1 = if betCount bets pc.1 = 1 then betBySeat bets pc.1 else none :=
    rfl
  unfold resolveStep
  by_cases hc : betCount bets pc.1 = 1
  · simp only [hc, ite_true]
    rcases hb : betBySeat bets pc.1 with _ | seat
    · rw [haw, hb]
      simp [hc]
    · have hslt := hwin seat hb
      rw [haw, hb]
      simp only [hc, ite_true]
      by_cases hs : seat = s
      · subst hs
        simp only [ite_true]
        cases hbird : pc.2.bird
        · simp only [Bool.false_eq_true, ite_false]
          simp [getElemD_set_self _ _ _ _ hslt]
        · simp only [ite_true]
          cases acc.birdHolder
          · simp [getElemD_set_self _ _ _ _ hslt]
          · split <;> (try split) <;> simp [getElemD_set_self _ _ _ _ hslt]
      · have hs' : ¬(some seat = some s) := by simpa using hs
        simp only [hs', ite_false]
        cases hbird : pc.2.bird
        · simp only [Bool.false_eq_true, ite_false]
          simp [getElemD_set_ne _ _ _ hs]
        · simp only [ite_true]
          cases acc.birdHolder
          · simp [getElemD_set_ne _ _ _ hs]
          · split <;> (try split) <;> simp [getElemD_set_ne _ _ _ hs]
  · simp only [hc, ite_false]
    rw [haw]
    simp [hc]

theorem foldl_resolveStep_winners (bets : List (Option Nat)) :
    ∀ (l : List (Nat × Card)) (acc : ResolveAcc),
      (l.foldl (resolveStep bets) acc).winners
        = acc.winners ++ l.map (fun pc => awardSeat bets pc.1) := by
  intro l
  induction l with
  | nil => intro acc; simp
  | cons pc rest ih =>
    intro acc
    simp only [List.foldl, List.map]
    rw [ih, resolveStep_winners]
    simp

theorem foldl_resolveStep_length (bets : List (Option Nat)) :
    ∀ (l : List (Nat × Card)) (acc : ResolveAcc),
      (l.foldl (resolveStep bets) acc).players.length = acc.players.length := by
  intro l
  induction l with
  | nil => intro acc; rfl
  | cons pc rest ih =>
    intro acc
    simp only [List.foldl]
    rw [ih, resolveStep_players_length]

theorem foldl_resolveStep_scored (bets : List (Option Nat)) :
    ∀ (l : List (Nat × Card)) (acc : ResolveAcc), bets.length ≤ acc.players.length →
      ∀ s, ((l.foldl (resolveStep bets) acc).players.getD s default).scored
        = (acc.players.getD s default).scored
          ++ (l.filter (fun pc => awardSeat bets pc.1 == some s)).map (fun pc => pc.2) := by
  intro l
  induction l with
  | nil => intro acc _ s; simp
  | cons pc rest ih =>
    intro acc hlen s
    simp only [List.foldl]
    rw [ih _ (by rw [resolveStep_players_length]; exact hlen) s,
      resolveStep_scored bets acc pc hlen s]
    by_cases hs : awardSeat bets pc.1 = some s
    · simp [List.filter, hs, List.append_assoc]
    · have : (awardSeat bets pc.1 == some s) = false := by
        simpa using hs
      simp [List.filter, this, hs]

theorem resolveRound_winners_eq (g : Game) :
    winnersOf (resolveRound g) = g.table.enum.map (fun pc => awardSeat g.bets pc.1) := by
  have h0 : winnersOf (resolveRound g)
      = (g.table.enum.foldl (resolveStep g.bets)
          { players := g.players, birdHolder := g.birdHolder,
            winners := [], events := [] }).winners := rfl
  rw [h0, foldl_resolveStep_winners]
  simp

theorem resolveRound_players_eq (g : Game) :
    (resolveRound g).players
      = (g.table.enum.foldl (resolveStep g.bets)
          { players := g.players, birdHolder := g.birdHolder,
            winners := [], events := [] }).players := rfl

theorem resolveRound_players_length (g : Game) :
    (resolveRound g).players.length = g.players.length := by
  rw [resolveRound_players_eq, foldl_resolveStep_length]

theorem resolveRound_scored (g : Game) (hlen : g.bets.length ≤ g.players.length) (s : Nat) :
    ((resolveRound g).players.getD s default).scored
      = (g.players.getD s default).scored ++ wonCards g s := by
  rw [resolveRound_players_eq]
  exact foldl_resolveStep_scored g.bets g.table.enum _ hlen s

/-- The fields of the game state that resolveRound leaves untouched or sets
directly (everything except players, birdHolder and the derived result). -/
theorem resolveRound_basic (g : Game) :
    (resolveRound g).deck = g.deck
      ∧ (resolveRound g).discard = g.discard ++ g.table
      ∧ (resolveRound g).table = g.table
      ∧ (resolveRound g).bets = g.bets
      ∧ (resolveRound g).phase = Phase.REVEAL
      ∧ (resolveRound g).turnGen = g.turnGen + 1
      ∧ (resolveRound g).deckPass = g.deckPass
      ∧ (resolveRound g).n = g.n
      ∧ (resolveRound g).isSolo = g.isSolo :=
  ⟨rfl, rfl, rfl, rfl, rfl, rfl, rfl, rfl, rfl⟩

theorem checkAllBetsIn_pos (g : Game)
    (h : g.phase = Phase.BETTING ∧ g.bets.all (fun b => b.isSome)) :
    checkAllBetsIn g = resolveRound g := by
  unfold checkAllBetsIn
  simp [h.1, h.2]

theorem checkAllBetsIn_neg (g : Game)
    (h : ¬(g.phase = Phase.BETTING ∧ g.bets.all (fun b => b.isSome))) :
    checkAllBetsIn g = g := by
  unfold checkAllBetsIn
  simp only [ite_eq_right_iff]
  intro hcond
  exact absurd hcond h

/-- Either checkAllBetsIn resolved the round, or it did nothing. -/
theorem checkAllBetsIn_cases (g : Game) :
    checkAllBetsIn g = resolveRound g ∧ g.phase = Phase.BETTING
      ∨ checkAllBetsIn g = g := by
  by_cases h : g.phase = Phase.BETTING ∧ g.bets.all (fun b => b.isSome)
  · exact Or.inl ⟨checkAllBetsIn_pos g h, h.1⟩
  · exact Or.inr (checkAllBetsIn_neg g h)

theorem sorted_pick_lt (L : Nat) (cands : List BotScored)
    (r : BotScored → BotScored → Bool)
    (hall : ∀ x ∈ cands, x.pos < L) (i : Nat)
    (hi : i < (cands.mergeSort r).length) :
    ((cands.mergeSort r).getD i default).pos < L := by
  have hel : (cands.mergeSort r).getD i default ∈ cands.mergeSort r := by
    rw [List.getD_eq_getElem _ default hi]
    exact List.getElem_mem hi
  exact hall _ ((List.mergeSort_perm cands r).mem_iff.mp hel)

/-- The chosen position of botChoose is a position of the current table. -/
theorem botChoose_lt (g : Game) (seat : Nat) (rnd : BotRnd) (ht : 1 ≤ g.table.length) :
    botChoose g seat rnd < g.table.length := by
  have hall : ∀ x ∈ g.table.enum.map (botScore g seat rnd), x.pos < g.table.length := by
    intro x hx
    rcases List.mem_map.mp hx with ⟨pc, hpc, hfe⟩
    have hpos : x.pos = pc.1 := by rw [← hfe]; rfl
    rw [hpos]
    exact lt_of_getElem?_eq_some (List.mem_enum_iff_getElem?.mp hpc)
  have hclen : 1 ≤ (g.table.enum.map (botScore g seat rnd)).length := by
    simpa using ht
  have hslen : ((g.table.enum.map (botScore g seat rnd)).mergeSort
      (fun a b => decide ((b : BotScored).s ≤ (a : BotScored).s))).length
      = (g.table.enum.map (botScore g seat rnd)).length :=
    (List.mergeSort_perm _ _).length_eq
  unfold botChoose
  by_cases htop : rnd.topChoice
  · simp only [htop, ite_true]
    exact sorted_pick_lt _ _ _ hall 0 (by omega)
  · simp only [htop, ite_false]
    exact sorted_pick_lt _ _ _ hall _ (by omega)

/-! ### The session invariant -/

/-- Structural invariant of every reachable session state: seat counts agree,
every stored bid is a table position, and deck+discard+table carries 36 cards
plus the REVEAL-time duplication of the table into the discard. -/
structure Inv (g : Game) : Prop where
  nPos : 1 ≤ g.n
  nLe : g.n ≤ 36
  playersLen : g.players.length = g.n
  tableLen : g.table.length = g.n
  betsLen : g.bets.length = g.n
  betsRange : ∀ b ∈ g.bets, ∀ v, b = some v → v < g.n
  cards : cardCount g = 36 + phaseExtra g

theorem endGame_basic (g : Game) :
    (endGame g).deck = g.deck
      ∧ (endGame g).discard = g.discard
      ∧ (endGame g).table = g.table
      ∧ (endGame g).bets = g.bets
      ∧ (endGame g).players = g.players
      ∧ (endGame g).phase = Phase.GAME_OVER
      ∧ (endGame g).turnGen = g.turnGen
      ∧ (endGame g).deckPass = g.deckPass
      ∧ (endGame g).n = g.n :=
  ⟨rfl, rfl, rfl, rfl, rfl, rfl, rfl, rfl, rfl⟩

theorem inv_resolveRound (g : Game) (hInv : Inv g) (hph : g.phase = Phase.BETTING) :
    Inv (resolveRound g) := by
  obtain ⟨hd, hdis, ht, hb, hph', htg, hdp, hn, hs⟩ := resolveRound_basic g
  refine ⟨?_, ?_, ?_, ?_, ?_, ?_, ?_⟩
  · rw [hn]; exact hInv.nPos
  · rw [hn]; exact hInv.nLe
  · rw [resolveRound_players_length, hn]; exact hInv.playersLen
  · rw [ht, hn]; exact hInv.tableLen
  · rw [hb, hn]; exact hInv.betsLen
  · rw [hb, hn]; exact hInv.betsRange
  · have hc := hInv.cards
    unfold cardCount phaseExtra at hc ⊢
    rw [hd, hdis, ht, hb, hph', hn] at *
    simp only [hph, ite_true] at hc
    simp only [List.length_append]
    have htl : g.table.length = g.n := hInv.tableLen
    simp only [reduceCtorEq, ite_false]
    omega

theorem inv_checkAllBetsIn (g : Game) (hInv : Inv g) : Inv (checkAllBetsIn g) := by
  rcases checkAllBetsIn_cases g with ⟨heq, hph⟩ | heq
  · rw [heq]; exact inv_resolveRound g hInv hph
  · rw [heq]; exact hInv

theorem inv_set_bet (g : Game) (hInv : Inv g) (s v : Nat) (hv : v < g.n)
    (_hph : g.phase = Phase.BETTING) :
    Inv { g with bets := g.bets.set s (some v) } := by
  refine ⟨hInv.nPos, hInv.nLe, hInv.playersLen, hInv.tableLen, ?_, ?_, ?_⟩
  · simp only [List.length_set]; exact hInv.betsLen
  · intro b hb w hw
    rcases List.mem_or_eq_of_mem_set hb with hmem | heq
    · exact hInv.betsRange b hmem w hw
    · rw [heq] at hw
      have hvw : v = w := by simpa using hw
      show w < g.n
      omega
  · have hc := hInv.cards
    unfold cardCount phaseExtra at hc ⊢
    exact hc

theorem handleBet_wrongPhase (g : Game) (gs : Option Nat) (pos : Option Int)
    (hph : g.phase ≠ Phase.BETTING) :
    handleBet g gs pos = (g, [OutMsg.gameState]) := by
  unfold handleBet
  rw [if_pos hph]

theorem handleBet_missing (g : Game) (gs : Option Nat) (pos : Option Int)
    (hph : g.phase = Phase.BETTING) (h : gs = none ∨ pos = none) :
    handleBet g gs pos = (g, []) := by
  unfold handleBet
  rw [if_neg (by simp [hph])]
  rcases gs with _ | s
  · rfl
  · rcases pos with _ | p
    · rfl
    · rcases h with h | h <;> cases h

theorem handleBet_some_some (g : Game) (s : Nat) (p : Int)
    (hph : g.phase = Phase.BETTING) :
    handleBet g (some s) (some p)
      = if p < 0 ∨ (g.n : Int) ≤ p ∨ (g.bets.getD s none).isSome then (g, [])
        else (checkAllBetsIn { g with bets := g.bets.set s (some p.toNat) },
          [OutMsg.gameState]) := by
  unfold handleBet
  rw [if_neg (by simp [hph])]

theorem inv_betStep (g : Game) (hInv : Inv g) (gs : Option Nat) (pos : Option Int) :
    Inv (betStep g gs pos) := by
  unfold betStep
  by_cases hph : g.phase = Phase.BETTING
  · rcases gs with _ | s
    · rw [handleBet_missing g none pos hph (Or.inl rfl)]
      exact hInv
    · rcases pos with _ | p
      · rw [handleBet_missing g (some s) none hph (Or.inr rfl)]
        exact hInv
      · rw [handleBet_some_some g s p hph]
        by_cases hbad : p < 0 ∨ (g.n : Int) ≤ p ∨ (g.bets.getD s none).isSome
        · rw [if_pos hbad]; exact hInv
        · rw [if_neg hbad]
          push_neg at hbad
          have hv : p.toNat < g.n := by omega
          exact inv_checkAllBetsIn _ (inv_set_bet g hInv s p.toNat hv hph)
  · rw [handleBet_wrongPhase g gs pos hph]
    exact hInv

theorem inv_botStep (g : Game) (hInv : Inv g) (bot : Nat) (rnd : BotRnd)
    (hph : g.phase = Phase.BETTING) :
    Inv (botStep g bot rnd) := by
  unfold botStep
  by_cases hset : (g.bets.getD bot none).isSome
  · simp only [hset, ite_true]; exact hInv
  · simp only [hset, ite_false]
    have hlt : botChoose g bot rnd < g.n := by
      have := botChoose_lt g bot rnd (by rw [hInv.tableLen]; exact hInv.nPos)
      rwa [hInv.tableLen] at this
    exact inv_checkAllBetsIn _ (inv_set_bet g hInv bot _ hlt hph)

theorem inv_autoStep (g : Game) (hInv : Inv g) (gs r : Nat) (hr : r < g.n)
    (hph : g.phase = Phase.BETTING) :
    Inv (autoStep g gs r) := by
  unfold autoStep
  by_cases hset : (g.bets.getD gs none).isSome
  · simp only [hset, ite_true]; exact hInv
  · simp only [hset, ite_false]
    exact inv_checkAllBetsIn _ (inv_set_bet g hInv gs r hr hph)

theorem inv_endGame (g : Game) (hInv : Inv g) (hph : g.phase ≠ Phase.BETTING) :
    Inv (endGame g) := by
  refine ⟨hInv.nPos, hInv.nLe, hInv.playersLen, hInv.tableLen, hInv.betsLen,
    hInv.betsRange, ?_⟩
  have := hInv.cards
  unfold cardCount phaseExtra at *
  simpa [endGame, hph] using this

theorem inv_nextRound (g : Game) (hInv : Inv g) (sh : List Card)
    (hph : g.phase = Phase.REVEAL) (hsh : sh.Perm g.discard) :
    Inv (nextRound g sh) := by
  have hex : phaseExtra g = g.n := by
    unfold phaseExtra
    simp [hph]
  have hcards : g.deck.length + g.discard.length + g.table.length = 36 + g.n := by
    have hc := hInv.cards
    unfold cardCount at hc
    rw [hex] at hc
    exact hc
  have hshlen : sh.length = g.discard.length := hsh.length_eq
  have htl : g.table.length = g.n := hInv.tableLen
  unfold nextRound
  by_cases hshort : g.deck.length < g.n
  · simp only [hshort, ite_true]
    by_cases hp0 : g.deckPass = 0
    · simp only [hp0, ite_true]
      by_cases hshort2 : (g.deck ++ sh).length < g.n
      · simp only [List.length_append] at hshort2
        simp only [List.length_append, hshort2, ite_true]
        refine inv_endGame _ ⟨hInv.nPos, hInv.nLe, hInv.playersLen, hInv.tableLen,
          hInv.betsLen, hInv.betsRange, ?_⟩ (by simp [hph])
        unfold cardCount phaseExtra
        simp only [List.length_append, List.length_nil, hph]
        simp only [reduceCtorEq, ite_false]
        omega
      · simp only [List.length_append] at hshort2
        simp only [List.length_append, hshort2, ite_false]
        push_neg at hshort2
        unfold deal
        refine ⟨hInv.nPos, hInv.nLe, hInv.playersLen, ?_, ?_, ?_, ?_⟩
        · simp only [List.length_take, List.length_append]
          omega
        · simp only [List.length_replicate]
        · intro b hb w hw
          have := List.eq_of_mem_replicate hb
          rw [this] at hw
          cases hw
        · unfold cardCount phaseExtra
          simp only [List.length_drop, List.length_take, List.length_append,
            List.length_nil, ite_true]
          omega
    · simp only [hp0, ite_false]
      exact inv_endGame g hInv (by simp [hph])
  · simp only [hshort, ite_false]
    push_neg at hshort
    unfold deal
    refine ⟨hInv.nPos, hInv.nLe, hInv.playersLen, ?_, ?_, ?_, ?_⟩
    · simp only [List.length_take]
      omega
    · simp only [List.length_replicate]
    · intro b hb w hw
      have := List.eq_of_mem_replicate hb
      rw [this] at hw
      cases hw
    · unfold cardCount phaseExtra
      simp only [List.length_drop, List.length_take, ite_true]
      omega

theorem inv_newGame (names : List String) (sh : List Card) (isSolo : Bool)
    (hn : 1 ≤ names.length) (hn6 : names.length ≤ 6) (hsh : sh.Perm BASE_DECK) :
    Inv (newGame names sh isSolo) := by
  have hshlen : sh.length = 36 := by
    rw [hsh.length_eq]
    rfl
  refine ⟨?_, ?_, ?_, ?_, ?_, ?_, ?_⟩
  · simpa [newGame] using hn
  · simp only [newGame]
    omega
  · simp [newGame]
  · simp only [newGame, List.length_take]
    omega
  · simp [newGame]
  · intro b hb w hw
    have := List.eq_of_mem_replicate hb
    rw [this] at hw
    cases hw
  · unfold cardCount phaseExtra
    simp only [newGame, List.length_drop, List.length_take, List.length_nil, ite_true]
    omega

/-- Every reachable session state satisfies the structural invariant. -/
theorem reachable_inv {g : Game} (h : Reachable g) : Inv g := by
  induction h with
  | init names sh isSolo hn hn6 hsh => exact inv_newGame names sh isSolo hn hn6 hsh
  | step _ hstep ih =>
    cases hstep with
    | bet gs pos => exact inv_betStep _ ih gs pos
    | bot b rnd hsolo hph hb => exact inv_botStep _ ih b rnd hph
    | auto gs r hph hr => exact inv_autoStep _ ih gs r hr hph
    | next sh hph hsh => exact inv_nextRound _ ih sh hph hsh

/-! ### nextRound branch analysis -/

theorem nextRound_cases (g : Game) (sh : List Card) :
    (¬ g.deck.length < g.n ∧ nextRound g sh = deal g)
    ∨ (g.deck.length < g.n ∧ g.deckPass = 0 ∧ g.n ≤ g.deck.length + sh.length
        ∧ nextRound g sh = deal { g with deck := g.deck ++ sh, discard := [], deckPass := 1 })
    ∨ (g.deck.length < g.n ∧ g.deckPass = 0 ∧ g.deck.length + sh.length < g.n
        ∧ nextRound g sh = endGame { g with deck := g.deck ++ sh, discard := [], deckPass := 1 })
    ∨ (g.deck.length < g.n ∧ g.deckPass ≠ 0 ∧ nextRound g sh = endGame g) := by
  by_cases h1 : g.deck.length < g.n
  · by_cases h2 : g.deckPass = 0
    · by_cases h3 : g.deck.length + sh.length < g.n
      · refine Or.inr (Or.inr (Or.inl ⟨h1, h2, h3, ?_⟩))
        unfold nextRound
        rw [if_pos h1, if_pos h2, if_pos (by simp only [List.length_append]; omega)]
      · push_neg at h3
        refine Or.inr (Or.inl ⟨h1, h2, h3, ?_⟩)
        unfold nextRound
        rw [if_pos h1, if_pos h2, if_neg (by simp only [List.length_append]; omega)]
    · refine Or.inr (Or.inr (Or.inr ⟨h1, h2, ?_⟩))
      unfold nextRound
      rw [if_pos h1, if_neg h2]
  · refine Or.inl ⟨h1, ?_⟩
    unfold nextRound
    rw [if_neg h1]

theorem deal_basic (g : Game) :
    (deal g).phase = Phase.BETTING
      ∧ (deal g).turnGen = g.turnGen + 1
      ∧ (deal g).deckPass = g.deckPass
      ∧ (deal g).table = g.deck.take g.n
      ∧ (deal g).deck = g.deck.drop g.n
      ∧ (deal g).discard = g.discard
      ∧ (deal g).n = g.n :=
  ⟨rfl, rfl, rfl, rfl, rfl, rfl, rfl⟩

theorem checkAllBetsIn_deckPass (g : Game) :
    (checkAllBetsIn g).deckPass = g.deckPass := by
  rcases checkAllBetsIn_cases g with ⟨heq, _⟩ | heq <;> rw [heq]
  exact (resolveRound_basic g).2.2.2.2.2.2.1

theorem betStep_deckPass (g : Game) (gs : Option Nat) (pos : Option Int) :
    (betStep g gs pos).deckPass = g.deckPass := by
  unfold betStep
  by_cases hph : g.phase = Phase.BETTING
  · rcases gs with _ | s
    · rw [handleBet_missing g none pos hph (Or.inl rfl)]
    · rcases pos with _ | p
      · rw [handleBet_missing g (some s) none hph (Or.inr rfl)]
      · rw [handleBet_some_some g s p hph]
        by_cases hbad : p < 0 ∨ (g.n : Int) ≤ p ∨ (g.bets.getD s none).isSome
        · rw [if_pos hbad]
        · rw [if_neg hbad]
          exact checkAllBetsIn_deckPass _
  · rw [handleBet_wrongPhase g gs pos hph]

theorem botStep_deckPass (g : Game) (bot : Nat) (rnd : BotRnd) :
    (botStep g bot rnd).deckPass = g.deckPass := by
  unfold botStep
  by_cases hset : (g.bets.getD bot none).isSome
  · simp only [hset, ite_true]
  · simp only [hset, ite_false]
    exact checkAllBetsIn_deckPass _

theorem autoStep_deckPass (g : Game) (gs r : Nat) :
    (autoStep g gs r).deckPass = g.deckPass := by
  unfold autoStep
  by_cases hset : (g.bets.getD gs none).isSome
  · simp only [hset, ite_true]
  · simp only [hset, ite_false]
    exact checkAllBetsIn_deckPass _

/-- deckPass never decreases along an operation, and once it is 1 it stays 1:
the one reshuffle of a session is the only write, from 0 to 1. -/
theorem step_deckPass {g g' : Game} (h : Step g g') :
    g.deckPass ≤ g'.deckPass ∧ (g.deckPass = 1 → g'.deckPass = 1) := by
  cases h with
  | bet gs pos =>
    rw [betStep_deckPass]
    exact ⟨Nat.le_refl _, fun h => h⟩
  | bot b rnd hsolo hph hb =>
    rw [botStep_deckPass]
    exact ⟨Nat.le_refl _, fun h => h⟩
  | auto gs r hph hr =>
    rw [autoStep_deckPass]
    exact ⟨Nat.le_refl _, fun h => h⟩
  | next sh hph hsh =>
    rcases nextRound_cases _ sh with ⟨_, heq⟩ | ⟨_, h0, _, heq⟩ | ⟨_, h0, _, heq⟩ | ⟨_, _, heq⟩ <;>
      rw [heq]
    · exact ⟨Nat.le_refl _, fun h => h⟩
    · constructor
      · show _ ≤ (1 : Nat)
        omega
      · intro h1
        rw [h0] at h1
        cases h1
    · constructor
      · show _ ≤ (1 : Nat)
        omega
      · intro h1
        rw [h0] at h1
        cases h1
    · exact ⟨Nat.le_refl _, fun h => h⟩

/-! ### Bird-token analysis -/

theorem mem_of_getElem?_eq_some {α : Type _} {l : List α} {i : Nat} {a : α}
    (h : l[i]? = some a) : a ∈ l := by
  rcases List.getElem?_eq_some.mp h with ⟨hlt, hv⟩
  rw [← hv]
  exact List.getElem_mem hlt

/-- Bird-card count of a seat in a player list. -/
def cnt (P : List Player) (i : Nat) : Nat := (P.getD i default).birdCards

/-- A position whose award is not a bird card (or is not awarded at all)
changes no bird count, no holder and no event list. -/
theorem resolveStep_no_event (bets : List (Option Nat)) (acc : ResolveAcc) (pc : Nat × Card)
    (h : ∀ seat, ¬(awardSeat bets pc.1 = some seat ∧ pc.2.bird = true)) :
    (resolveStep bets acc pc).events = acc.events
    ∧ (resolveStep bets acc pc).birdHolder = acc.birdHolder
    ∧ ∀ i, cnt (resolveStep bets acc pc).players i = cnt acc.players i := by
  unfold resolveStep
  by_cases hc : betCount bets pc.1 = 1
  · simp only [hc, ite_true]
    rcases hb : betBySeat bets pc.1 with _ | seat
    · exact ⟨rfl, rfl, fun i => rfl⟩
    · have haw : awardSeat bets pc.1 = some seat := by
        unfold awardSeat
        simp [hc, hb]
      cases hbird : pc.2.bird
      · simp only [Bool.false_eq_true, ite_false]
        refine ⟨by simp, by simp, fun i => ?_⟩
        show cnt (acc.players.set seat
          { name := (acc.players.getD seat default).name,
            scored := (acc.players.getD seat default).scored ++ [pc.2],
            birdCards := (acc.players.getD seat default).birdCards }) i = cnt acc.players i
        unfold cnt
        by_cases hlt : seat < acc.players.length
        · by_cases hi : seat = i
          · subst hi
            rw [getD_set_self _ _ _ _ hlt]
          · rw [getD_set_ne _ _ _ hi]
        · rw [List.set_eq_of_length_le (by omega)]
      · exact absurd ⟨haw, hbird⟩ (h seat)
  · simp only [hc, ite_false]
    exact ⟨by simp, by simp, fun i => by simp⟩

/-- The player-list effect of awarding a bird card: the winner's record gains
the card and one bird count. -/
theorem resolveStep_bird_players (bets : List (Option Nat)) (acc : ResolveAcc)
    (pc : Nat × Card) (seat : Nat)
    (ha : awardSeat bets pc.1 = some seat) (hbird : pc.2.bird = true) :
    (resolveStep bets acc pc).players
      = acc.players.set seat
          { name := (acc.players.getD seat default).name,
            scored := (acc.players.getD seat default).scored ++ [pc.2],
            birdCards := (acc.players.getD seat default).birdCards + 1 } := by
  obtain ⟨hc, hmem⟩ := awardSeat_some bets pc.1 seat ha
  have hb : betBySeat bets pc.1 = some seat := betBySeat_unique _ _ _ hc hmem
  unfold resolveStep
  simp only [hc, ite_true, hb, hbird]
  cases acc.birdHolder
  · rfl
  · split <;> (try split) <;> rfl

/-- Bird counts after a bird award: the winner gains one, others unchanged. -/
theorem resolveStep_bird_counts (bets : List (Option Nat)) (acc : ResolveAcc)
    (pc : Nat × Card) (seat : Nat)
    (ha : awardSeat bets pc.1 = some seat) (hbird : pc.2.bird = true)
    (hlt : seat < acc.players.length) (i : Nat) :
    cnt (resolveStep bets acc pc).players i
      = cnt acc.players i + (if i = seat then 1 else 0) := by
  rw [resolveStep_bird_players bets acc pc seat ha hbird]
  unfold cnt
  by_cases hi : seat = i
  · subst hi
    rw [getD_set_self _ _ _ _ hlt]
    simp
  · rw [getD_set_ne _ _ _ hi, if_neg (fun h => hi h.symm)]
    omega

/-- Holder / event effect of awarding a bird card. -/
theorem resolveStep_bird_holder (bets : List (Option Nat)) (acc : ResolveAcc)
    (pc : Nat × Card) (seat : Nat)
    (ha : awardSeat bets pc.1 = some seat) (hbird : pc.2.bird = true)
    (_hlt : seat < acc.players.length) :
    (acc.birdHolder = none →
      (resolveStep bets acc pc).birdHolder = some seat
      ∧ (resolveStep bets acc pc).events = acc.events ++ [.first seat])
    ∧ (∀ prev, acc.birdHolder = some prev →
        ((seat ≠ prev ∧ cnt acc.players prev < cnt acc.players seat + 1) →
          (resolveStep bets acc pc).birdHolder = some seat
          ∧ (resolveStep bets acc pc).events = acc.events ++ [.steal seat prev])
        ∧ (¬(seat ≠ prev ∧ cnt acc.players prev < cnt acc.players seat + 1) →
          (resolveStep bets acc pc).birdHolder = some prev
          ∧ (resolveStep bets acc pc).events = acc.events)) := by
  obtain ⟨hc, hmem⟩ := awardSeat_some bets pc.1 seat ha
  have hb : betBySeat bets pc.1 = some seat := betBySeat_unique _ _ _ hc hmem
  unfold resolveStep
  simp only [hc, ite_true, hb, hbird]
  constructor
  · intro hh
    simp only [hh]
    exact ⟨by simp, by simp⟩
  · intro prev hh
    simp only [hh]
    have hcond : (seat ≠ prev ∧
        ((acc.players.set seat
          { name := (acc.players.getD seat default).name,
            scored := (acc.players.getD seat default).scored ++ [pc.2],
            birdCards := (acc.players.getD seat default).birdCards + 1 }).getD prev
              default).birdCards < (acc.players.getD seat default).birdCards + 1)
        ↔ (seat ≠ prev ∧ cnt acc.players prev < cnt acc.players seat + 1) := by
      unfold cnt
      by_cases hsp : seat = prev
      · simp [hsp]
      · rw [getD_set_ne _ _ _ hsp]
    constructor
    · intro hcnd
      rw [if_pos (hcond.mpr hcnd)]
      exact ⟨rfl, rfl⟩
    · intro hcnd
      rw [if_neg (fun hx => hcnd (hcond.mp hx))]
      exact ⟨rfl, rfl⟩

/-- Induction invariant for the bird-token bound: walking the table positions
with resolveStep, either no bird event has fired yet (and the holder is the
round-initial one), or exactly one has (and every seat still at its initial
count is strictly below the current holder).  The third component records that
an already-incremented seat cannot win any of the remaining positions. -/
def BirdJ (bets : List (Option Nat)) (P0 : List Player) (h0 : Option Nat)
    (l : List (Nat × Card)) (acc : ResolveAcc) : Prop :=
  acc.players.length = P0.length
  ∧ (∀ s, cnt acc.players s = cnt P0 s ∨ cnt acc.players s = cnt P0 s + 1)
  ∧ (∀ s, cnt acc.players s = cnt P0 s + 1 → ∀ pc ∈ l, awardSeat bets pc.1 ≠ some s)
  ∧ ((acc.events = [] ∧ acc.birdHolder = h0
        ∧ (h0 = none → ∀ s, cnt acc.players s = cnt P0 s))
     ∨ (∃ e w, acc.events = [e] ∧ acc.birdHolder = some w
        ∧ ∀ t, cnt acc.players t = cnt P0 t → cnt P0 t < cnt acc.players w))

theorem bird_fold (bets : List (Option Nat)) (P0 : List Player) (h0 : Option Nat)
    (hlen : bets.length ≤ P0.length)
    (inv0n : h0 = none → ∀ s, cnt P0 s = 0)
    (inv0s : ∀ H, h0 = some H → ∀ s, cnt P0 s ≤ cnt P0 H) :
    ∀ (l : List (Nat × Card)) (acc : ResolveAcc),
      (l.map Prod.fst).Nodup →
      BirdJ bets P0 h0 l acc →
      BirdJ bets P0 h0 [] (l.foldl (resolveStep bets) acc) := by
  intro l
  induction l with
  | nil =>
    intro acc _ hJ
    exact hJ
  | cons pc rest ih =>
    intro acc hnd hJ
    obtain ⟨j1, j2, j3, j4⟩ := hJ
    have hnd2 : (pc.1 :: rest.map Prod.fst).Nodup := by simpa using hnd
    have hnd' : (rest.map Prod.fst).Nodup := (List.nodup_cons.mp hnd2).2
    have hhead : pc.1 ∉ rest.map Prod.fst := (List.nodup_cons.mp hnd2).1
    simp only [List.foldl]
    apply ih _ hnd'
    by_cases hbw : ∃ seat, awardSeat bets pc.1 = some seat ∧ pc.2.bird = true
    case neg =>
      obtain ⟨hev, hold, hcnt⟩ :=
        resolveStep_no_event bets acc pc (fun seat hx => hbw ⟨seat, hx⟩)
      refine ⟨?_, ?_, ?_, ?_⟩
      · rw [resolveStep_players_length]; exact j1
      · intro s; rw [hcnt]; exact j2 s
      · intro s hs pc' hpc'
        rw [hcnt] at hs
        exact j3 s hs pc' (List.mem_cons_of_mem _ hpc')
      · rcases j4 with ⟨he, hh, hz⟩ | ⟨e, w, he, hh, hB⟩
        · left
          exact ⟨by rw [hev, he], by rw [hold, hh],
            fun hn s => by rw [hcnt]; exact hz hn s⟩
        · right
          refine ⟨e, w, by rw [hev, he], by rw [hold, hh], fun t ht => ?_⟩
          rw [hcnt] at ht
          rw [hcnt]
          exact hB t ht
    case pos =>
      obtain ⟨seat, haw, hbird⟩ := hbw
      have hseatlt : seat < acc.players.length := by
        have hm := (awardSeat_some bets pc.1 seat haw).2
        have := lt_of_getElem?_eq_some hm
        omega
      have hcnts := resolveStep_bird_counts bets acc pc seat haw hbird hseatlt
      have hholder := resolveStep_bird_holder bets acc pc seat haw hbird hseatlt
      have hseat0 : cnt acc.players seat = cnt P0 seat := by
        rcases j2 seat with h | h
        · exact h
        · exact absurd haw (j3 seat h pc (List.mem_cons_self pc rest))
      have hstep_seat : cnt (resolveStep bets acc pc).players seat = cnt P0 seat + 1 := by
        rw [hcnts seat, if_pos rfl, hseat0]
      refine ⟨?_, ?_, ?_, ?_⟩
      · rw [resolveStep_players_length]; exact j1
      · intro s
        by_cases hs : s = seat
        · subst hs
          right
          exact hstep_seat
        · rw [hcnts s, if_neg hs, Nat.add_zero]
          exact j2 s
      · intro s hs pc' hpc' hcon
        by_cases hseq : s = seat
        · subst hseq
          have h1 := (awardSeat_some bets pc.1 s haw).2
          have h2 := (awardSeat_some bets pc'.1 s hcon).2
          have hp : pc.1 = pc'.1 := by
            rw [h1] at h2
            simpa using h2
          exact hhead (hp ▸ List.mem_map_of_mem Prod.fst hpc')
        · rw [hcnts s, if_neg hseq, Nat.add_zero] at hs
          exact j3 s hs pc' (List.mem_cons_of_mem _ hpc') hcon
      · rcases j4 with ⟨he, hh, hz⟩ | ⟨e, w, he, hh, hB⟩
        · rcases hA : h0 with _ | H
          · have hhn : acc.birdHolder = none := by rw [hh, hA]
            obtain ⟨hold', hev'⟩ := hholder.1 hhn
            right
            refine ⟨.first seat, seat, by rw [hev', he]; rfl, hold', fun t ht => ?_⟩
            have hz0 := inv0n hA
            have hzt := hz0 t
            have hzs := hz0 seat
            omega
          · have hhs : acc.birdHolder = some H := by rw [hh, hA]
            have hHfacts := hholder.2 H hhs
            by_cases hcnd : seat ≠ H ∧ cnt acc.players H < cnt acc.players seat + 1
            · obtain ⟨hold', hev'⟩ := hHfacts.1 hcnd
              right
              refine ⟨.steal seat H, seat, by rw [hev', he]; rfl, hold', fun t ht => ?_⟩
              have h1 : cnt P0 t ≤ cnt P0 H := inv0s H hA t
              have h2 : cnt P0 H ≤ cnt acc.players H := by
                rcases j2 H with h | h <;> omega
              have h3 : cnt acc.players H < cnt P0 seat + 1 := by
                rw [← hseat0]
                exact hcnd.2
              omega
            · obtain ⟨hold', hev'⟩ := hHfacts.2 hcnd
              left
              exact ⟨by rw [hev', he], by rw [hold'], fun hn => by cases hn⟩
        · have hwfacts := hholder.2 w hh
          have hnost : ¬(seat ≠ w ∧ cnt acc.players w < cnt acc.players seat + 1) := by
            rintro ⟨hsw, hlt2⟩
            have := hB seat hseat0
            rw [hseat0] at hlt2
            omega
          obtain ⟨hold', hev'⟩ := hwfacts.2 hnost
          right
          refine ⟨e, w, by rw [hev', he], by rw [hold'], fun t ht => ?_⟩
          by_cases htw : t = seat
          · subst htw
            rw [hstep_seat] at ht
            omega
          · have hta : cnt acc.players t = cnt P0 t := by
              rw [hcnts t, if_neg htw, Nat.add_zero] at ht
              exact ht
            have hlt3 := hB t hta
            by_cases hws : w = seat
            · subst hws
              have hw' : cnt (resolveStep bets acc pc).players w
                  = cnt acc.players w + 1 := by
                rw [hcnts w, if_pos rfl]
              omega
            · have hw' : cnt (resolveStep bets acc pc).players w
                  = cnt acc.players w := by
                rw [hcnts w, if_neg hws, Nat.add_zero]
              omega

/-- The bird-event sequence recorded by the most recent resolution. -/
def eventsOf (g : Game) : List BirdEvent :=
  match g.lastResult with
  | some r => r.birdEvents
  | none => []

theorem resolveRound_events (g : Game) :
    eventsOf (resolveRound g)
      = (g.table.enum.foldl (resolveStep g.bets)
          { players := g.players, birdHolder := g.birdHolder,
            winners := [], events := [] }).events := rfl

/-- At most one bird-token assignment happens in a resolution, provided the
round starts with the holder-dominance invariant (no holder means nobody has
a bird card; a holder has at least as many bird cards as anyone). -/
theorem resolveRound_events_le_one (g : Game)
    (hlen : g.bets.length ≤ g.players.length)
    (hn0 : g.birdHolder = none → ∀ s, cnt g.players s = 0)
    (hsH : ∀ H, g.birdHolder = some H → ∀ s, cnt g.players s ≤ cnt g.players H) :
    (eventsOf (resolveRound g)).length ≤ 1 := by
  have hnd : (g.table.enum.map Prod.fst).Nodup := by
    rw [List.enum_map_fst]
    exact List.nodup_range _
  have hJ0 : BirdJ g.bets g.players g.birdHolder g.table.enum
      { players := g.players, birdHolder := g.birdHolder, winners := [], events := [] } := by
    refine ⟨rfl, fun s => Or.inl rfl,
      fun s hs => absurd hs
        (by show ¬(cnt g.players s = cnt g.players s + 1); omega),
      Or.inl ⟨rfl, rfl, fun _ s => rfl⟩⟩
  obtain ⟨_, _, _, h4⟩ :=
    bird_fold g.bets g.players g.birdHolder hlen hn0 hsH g.table.enum _ hnd hJ0
  rw [resolveRound_events]
  rcases h4 with ⟨he, _, _⟩ | ⟨e, w, he, _, _⟩
  · rw [he]; simp
  · rw [he]; simp

theorem resolveRound_winners_getD_lt (g : Game) (p : Nat) (hp : p < g.table.length) :
    (winnersOf (resolveRound g)).getD p none = awardSeat g.bets p := by
  rw [resolveRound_winners_eq]
  have hc : g.table[p]? = some (g.table.get ⟨p, hp⟩) := List.getElem?_eq_getElem hp
  simp [List.getD_eq_getElem?_getD, List.getElem?_enum, hc]

theorem resolveRound_winners_getD_ge (g : Game) (p : Nat) (hp : g.table.length ≤ p) :
    (winnersOf (resolveRound g)).getD p none = none := by
  rw [resolveRound_winners_eq, List.getD_eq_getElem?_getD,
    List.getElem?_eq_none (by simpa using hp)]
  rfl

/-- C2: resolving awards the card at position p to seat s exactly when s is
the unique seat that bid p; the card is appended to the winner's scored
pile, in table order, and contested or unbid positions appear in no winners
entry and extend nobody's pile. -/
theorem c2_single_bidder_wins (g : Game)
    (hlen : g.bets.length ≤ g.players.length)
    (hrange : ∀ b ∈ g.bets, ∀ v, b = some v → v < g.table.length) :
    (∀ p s : Nat, (winnersOf (resolveRound g)).getD p none = some s ↔
        betCount g.bets p = 1 ∧ g.bets[s]? = some (some p))
    ∧ (∀ s : Nat, ((resolveRound g).players.getD s default).scored
        = (g.players.getD s default).scored ++ wonCards g s) := by
  constructor
  · intro p s
    by_cases hp : p < g.table.length
    · rw [resolveRound_winners_getD_lt g p hp]
      constructor
      · intro h
        exact awardSeat_some _ _ _ h
      · rintro ⟨hc, hs⟩
        exact awardSeat_eq_some _ _ _ hc hs
    · rw [resolveRound_winners_getD_ge g p (by omega)]
      constructor
      · intro h
        cases h
      · rintro ⟨hc, hs⟩
        have hbmem : (some p) ∈ g.bets := mem_of_getElem?_eq_some hs
        have := hrange _ hbmem p rfl
        omega
  · intro s
    exact resolveRound_scored g hlen s

/-- C3: a bird-flagged card awarded to seat s makes s the holder when no seat
holds the token (a first event); transfers the token when a different seat
strictly exceeds the holder's count after incrementing (a steal event);
leaves the holder unchanged on a tie; and a resolution performs at most one
bird-token event when the round starts with the holder invariant. -/
theorem c3_bird_token (g : Game)
    (hlen : g.bets.length ≤ g.players.length)
    (hn0 : g.birdHolder = none → ∀ s, cnt g.players s = 0)
    (hsH : ∀ H, g.birdHolder = some H → ∀ s, cnt g.players s ≤ cnt g.players H) :
    (eventsOf (resolveRound g)).length ≤ 1
    ∧ (∀ (bets : List (Option Nat)) (acc : ResolveAcc) (pc : Nat × Card) (seat : Nat),
        awardSeat bets pc.1 = some seat → pc.2.bird = true →
        seat < acc.players.length →
        (acc.birdHolder = none →
          (resolveStep bets acc pc).birdHolder = some seat
          ∧ (resolveStep bets acc pc).events = acc.events ++ [.first seat])
        ∧ (∀ prev, acc.birdHolder = some prev → seat ≠ prev →
            cnt acc.players prev < cnt acc.players seat + 1 →
            (resolveStep bets acc pc).birdHolder = some seat
            ∧ (resolveStep bets acc pc).events = acc.events ++ [.steal seat prev])
        ∧ (∀ prev, acc.birdHolder = some prev →
            cnt acc.players seat + 1 = cnt acc.players prev →
            (resolveStep bets acc pc).birdHolder = some prev
            ∧ (resolveStep bets acc pc).events = acc.events)) := by
  constructor
  · exact resolveRound_events_le_one g hlen hn0 hsH
  · intro bets acc pc seat haw hbird hseatlt
    have hholder := resolveStep_bird_holder bets acc pc seat haw hbird hseatlt
    refine ⟨hholder.1, ?_, ?_⟩
    · intro prev hprev hne hlt2
      exact (hholder.2 prev hprev).1 ⟨hne, hlt2⟩
    · intro prev hprev htie
      refine (hholder.2 prev hprev).2 ?_
      rintro ⟨hne, hlt2⟩
      omega

/-! ### Score formula -/

theorem foldl_add_cap (l : List Card) :
    ∀ a : Nat, l.foldl (fun a c => a + c.cap) a = a + (l.map (fun c => c.cap)).sum := by
  induction l with
  | nil => intro a; simp
  | cons c rest ih =>
    intro a
    simp only [List.foldl, List.map, List.sum_cons]
    rw [ih]
    omega

theorem mem_insertLily (x : Lily) :
    ∀ (ls acc : List Lily),
      (x ∈ ls.foldl (fun a l => if l ∈ a then a else a ++ [l]) acc) ↔ (x ∈ acc ∨ x ∈ ls) := by
  intro ls
  induction ls with
  | nil => intro acc; simp
  | cons l rest ih =>
    intro acc
    simp only [List.foldl]
    rw [ih]
    by_cases hl : l ∈ acc
    · simp only [hl, ite_true]
      constructor
      · rintro (h | h)
        · exact Or.inl h
        · exact Or.inr (List.mem_cons_of_mem _ h)
      · rintro (h | h)
        · exact Or.inl h
        · rcases List.mem_cons.mp h with rfl | h2
          · exact Or.inl hl
          · exact Or.inr h2
    · simp only [hl, ite_false]
      constructor
      · rintro (h | h)
        · rcases List.mem_append.mp h with h2 | h2
          · exact Or.inl h2
          · rcases List.mem_singleton.mp h2 with rfl
            exact Or.inr (List.mem_cons_self _ _)
        · exact Or.inr (List.mem_cons_of_mem _ h)
      · rintro (h | h)
        · exact Or.inl (List.mem_append.mpr (Or.inl h))
        · rcases List.mem_cons.mp h with rfl | h2
          · exact Or.inl (List.mem_append.mpr (Or.inr (List.mem_singleton.mpr rfl)))
          · exact Or.inr h2

theorem mem_collect_aux (x : Lily) :
    ∀ (cards : List Card) (acc : List Lily),
      x ∈ cards.foldl
          (fun acc c => c.lilies.foldl (fun a l => if l ∈ a then a else a ++ [l]) acc) acc
        ↔ x ∈ acc ∨ ∃ c ∈ cards, x ∈ c.lilies := by
  intro cards
  induction cards with
  | nil => intro acc; simp
  | cons c rest ih =>
    intro acc
    simp only [List.foldl]
    rw [ih, mem_insertLily]
    constructor
    · rintro ((h | h) | ⟨c2, hc2, hx⟩)
      · exact Or.inl h
      · exact Or.inr ⟨c, List.mem_cons_self _ _, h⟩
      · exact Or.inr ⟨c2, List.mem_cons_of_mem _ hc2, hx⟩
    · rintro (h | ⟨c2, hc2, hx⟩)
      · exact Or.inl (Or.inl h)
      · rcases List.mem_cons.mp hc2 with rfl | h2
        · exact Or.inl (Or.inr hx)
        · exact Or.inr ⟨c2, h2, hx⟩

theorem mem_collectLilies (x : Lily) (cards : List Card) :
    x ∈ collectLilies cards ↔ ∃ c ∈ cards, x ∈ c.lilies := by
  unfold collectLilies
  rw [mem_collect_aux]
  simp

/-- The all-four-colors bonus condition computed by the server coincides with
coverage of every lily color by the scored pile. -/
theorem allLiliesOf_iff (cards : List Card) :
    allLiliesOf (collectLilies cards) = true ↔ ∀ l : Lily, ∃ c ∈ cards, l ∈ c.lilies := by
  unfold allLiliesOf
  rw [List.all_eq_true]
  constructor
  · intro h l
    have hmem := h l (by cases l <;> simp)
    rw [← mem_collectLilies l cards]
    simpa using hmem
  · intro h y hy
    have := (mem_collectLilies y cards).mpr (h y)
    simpa using this

theorem scoreEntry_pts (g : Game) (i : Nat) (p : Player) :
    (scoreEntry g i p).pts
      = (p.scored.map (fun c => c.cap)).sum
        + (if g.birdHolder = some i then 5 else 0)
        + (if ∀ l : Lily, ∃ c ∈ p.scored, l ∈ c.lilies then 10 else 0) := by
  simp only [scoreEntry]
  rw [foldl_add_cap]
  by_cases hall : ∀ l : Lily, ∃ c ∈ p.scored, l ∈ c.lilies
  · rw [if_pos ((allLiliesOf_iff p.scored).mpr hall), if_pos hall]
    by_cases hb : g.birdHolder = some i
    · rw [if_pos hb, if_pos hb]
      omega
    · rw [if_neg hb, if_neg hb]
      omega
  · rw [if_neg (fun h => hall ((allLiliesOf_iff p.scored).mp h)), if_neg hall]
    by_cases hb : g.birdHolder = some i
    · rw [if_pos hb, if_pos hb]
      omega
    · rw [if_neg hb, if_neg hb]
      omega

theorem computeScores_getElem? (g : Game) (i : Nat) :
    (computeScores g)[i]? = (g.players[i]?).map (fun p => scoreEntry g i p) := by
  unfold computeScores
  rw [List.getElem?_map, List.getElem?_enum]
  cases g.players[i]? <;> rfl

/-! ### Claim theorems: C1, C4, C5, C6 -/

/-- C1 (amended): in every reachable session state the total
deck+discard+table+scored count equals 36 plus one extra copy of each scored
card plus, outside BETTING, one extra copy of the n table cards.  The
spec's claimed constant 36 fails because resolution pushes every table card
onto the discard while also copying awarded cards into scored piles. -/
theorem c1_card_conservation {g : Game} (h : Reachable g) :
    totalCards g = 36 + scoredTotal g + phaseExtra g := by
  have hInv := reachable_inv h
  have hc := hInv.cards
  unfold totalCards
  omega

theorem c1_card_conservation_witness :
    totalCards (newGame (["A", "B"]) BASE_DECK false)
      = 36 + scoredTotal (newGame (["A", "B"]) BASE_DECK false)
        + phaseExtra (newGame (["A", "B"]) BASE_DECK false) :=
  c1_card_conservation
    (Reachable.init (["A", "B"]) BASE_DECK false (by decide) (by decide) (List.Perm.refl _))

/-- A session reached by dealing to two seats and receiving both bids: each
seat bids a distinct position, so both cards are awarded and the round
resolves. -/
def c1CexGame : Game :=
  betStep (betStep (newGame (["A", "B"]) BASE_DECK false) (some 0) (some 0)) (some 1) (some 1)

/-- C1 as written is false: after one resolved round with two awarded cards
the total is 40, not 36 (both awarded cards sit in scored piles and in the
discard, and the two revealed table cards are also already in the discard). -/
theorem c1_counterexample : Reachable c1CexGame ∧ totalCards c1CexGame ≠ 36 :=
  ⟨Reachable.step
    (Reachable.step
      (Reachable.init (["A", "B"]) BASE_DECK false (by decide) (by decide) (List.Perm.refl _))
      (Step.bet _ (some 0) (some 0)))
    (Step.bet _ (some 1) (some 1)),
   by decide⟩

/-- C4: the computed score of a seat is the sum of capivara counts of its
scored cards, plus 5 for holding the bird token, plus 10 when the scored
cards cover all four lily colors; final standings cached at game over are
exactly computeScores of the final state. -/
theorem c4_score_formula (g : Game) :
    (∀ i e, (computeScores g)[i]? = some e →
      e.pts = ((g.players.getD i default).scored.map (fun c => c.cap)).sum
        + (if g.birdHolder = some i then 5 else 0)
        + (if ∀ l : Lily, ∃ c ∈ (g.players.getD i default).scored, l ∈ c.lilies
            then 10 else 0))
    ∧ (endGame g).finalScores = some (computeScores { g with phase := Phase.GAME_OVER }) := by
  constructor
  · intro i e he
    rw [computeScores_getElem?] at he
    rcases hp : g.players[i]? with _ | p
    · rw [hp] at he
      cases he
    · rw [hp] at he
      have he2 : scoreEntry g i p = e := by simpa using he
      have hpd : g.players.getD i default = p := by
        rw [List.getD_eq_getElem?_getD, hp]
        rfl
      rw [← he2, hpd]
      exact scoreEntry_pts g i p
  · rfl

/-- A state with a nontrivial scored pile for seat 0, which holds the bird
token. -/
def c4WitPlayer : Player :=
  { name := "A", scored := [mkCard 3 [.Y] false, mkCard 2 [.R] true], birdCards := 1 }

def c4WitGame : Game :=
  { players := [c4WitPlayer, { name := "B", scored := [], birdCards := 0 }],
    n := 2, deck := [], discard := [], table := [], bets := [none, none],
    birdHolder := some 0, phase := .REVEAL, deckPass := 0, lastResult := none,
    isSolo := false, turnGen := 3, winnerIdx := none, finalScores := none }

theorem c4_score_formula_witness :
    (scoreEntry c4WitGame 0 (c4WitGame.players.getD 0 default)).pts
      = ((c4WitGame.players.getD 0 default).scored.map (fun c => c.cap)).sum
        + (if c4WitGame.birdHolder = some 0 then 5 else 0)
        + (if ∀ l : Lily, ∃ c ∈ (c4WitGame.players.getD 0 default).scored, l ∈ c.lilies
            then 10 else 0) :=
  (c4_score_formula c4WitGame).1 0 _ (by decide)

/-- C5 (amended): turnGen increments on the BETTING→REVEAL transition of
resolution and on the REVEAL→BETTING transition of dealing; a transition
into GAME_OVER leaves turnGen unchanged (endGame does not touch it). -/
theorem c5_turn_gen (g : Game) (sh : List Card) :
    (resolveRound g).turnGen = g.turnGen + 1
    ∧ (endGame g).turnGen = g.turnGen
    ∧ ((nextRound g sh).phase = Phase.BETTING → (nextRound g sh).turnGen = g.turnGen + 1)
    ∧ ((nextRound g sh).phase = Phase.GAME_OVER → (nextRound g sh).turnGen = g.turnGen) := by
  refine ⟨rfl, rfl, ?_, ?_⟩
  · intro hph
    rcases nextRound_cases g sh with ⟨_, heq⟩ | ⟨_, _, _, heq⟩ | ⟨_, _, _, heq⟩ | ⟨_, _, heq⟩ <;>
      rw [heq] at hph ⊢
    · rfl
    · rfl
    · simp [endGame] at hph
    · simp [endGame] at hph
  · intro hph
    rcases nextRound_cases g sh with ⟨_, heq⟩ | ⟨_, _, _, heq⟩ | ⟨_, _, _, heq⟩ | ⟨_, _, heq⟩ <;>
      rw [heq] at hph ⊢
    · simp [deal] at hph
    · simp [deal] at hph
    · rfl
    · rfl

/-- A session in REVEAL on its second deck pass with an exhausted deck: the
next-round timer will end the game. -/
def c5CexGame : Game :=
  { players := [{ name := "A", scored := [], birdCards := 0 },
      { name := "B", scored := [], birdCards := 0 }],
    n := 2, deck := [], discard := [],
    table := [mkCard 1 [] false, mkCard 1 [] false], bets := [none, none],
    birdHolder := none, phase := .REVEAL, deckPass := 1, lastResult := none,
    isSolo := false, turnGen := 7, winnerIdx := none, finalScores := none }

/-- C5 as written is false: the transition into GAME_OVER leaves turnGen
unchanged (here 7), not strictly greater. -/
theorem c5_counterexample :
    c5CexGame.phase = Phase.REVEAL
    ∧ (nextRound c5CexGame []).phase = Phase.GAME_OVER
    ∧ ¬ c5CexGame.turnGen < (nextRound c5CexGame []).turnGen := by
  decide

/-- Like c5CexGame but with enough deck left to deal a fresh round. -/
def c5WitGame : Game :=
  { players := [{ name := "A", scored := [], birdCards := 0 },
      { name := "B", scored := [], birdCards := 0 }],
    n := 2, deck := [mkCard 1 [] false, mkCard 2 [] false, mkCard 3 [] false],
    discard := [], table := [mkCard 1 [] false, mkCard 1 [] false], bets := [none, none],
    birdHolder := none, phase := .REVEAL, deckPass := 0, lastResult := none,
    isSolo := false, turnGen := 4, winnerIdx := none, finalScores := none }

theorem c5_turn_gen_witness :
    (nextRound c5WitGame []).turnGen = c5WitGame.turnGen + 1 :=
  (c5_turn_gen c5WitGame []).2.2.1 (by decide)

/-- C6: when the deck is short of n cards, the first exhaustion reshuffles
the discard into the deck, sets deckPass to 1 and deals on; the second
exhaustion ends the game without dealing; and no operation ever lowers
deckPass or reshuffles again once deckPass is 1. -/
theorem c6_deck_pass (g : Game) (sh : List Card) (hshort : g.deck.length < g.n) :
    (g.deckPass = 0 →
      (nextRound g sh).deckPass = 1
      ∧ (nextRound g sh).discard = []
      ∧ (g.n ≤ g.deck.length + sh.length →
          (nextRound g sh).phase = Phase.BETTING
          ∧ (nextRound g sh).table = (g.deck ++ sh).take g.n
          ∧ (nextRound g sh).deck = (g.deck ++ sh).drop g.n)
      ∧ (g.deck.length + sh.length < g.n →
          (nextRound g sh).phase = Phase.GAME_OVER ∧ (nextRound g sh).table = g.table))
    ∧ (g.deckPass = 1 →
      (nextRound g sh).phase = Phase.GAME_OVER
      ∧ (nextRound g sh).table = g.table
      ∧ (nextRound g sh).deck = g.deck
      ∧ (nextRound g sh).bets = g.bets)
    ∧ (∀ g1 g2 : Game, Step g1 g2 →
        g1.deckPass ≤ g2.deckPass ∧ (g1.deckPass = 1 → g2.deckPass = 1))
    ∧ (Reachable g → g.phase = Phase.REVEAL → sh.Perm g.discard → g.deckPass = 0 →
        (nextRound g sh).phase = Phase.BETTING) := by
  refine ⟨?_, ?_, fun g1 g2 hs => step_deckPass hs, ?_⟩
  · intro hp0
    rcases nextRound_cases g sh with ⟨hc, _⟩ | ⟨_, _, hle, heq⟩ | ⟨_, _, hlt, heq⟩ | ⟨_, hne, _⟩
    · exact absurd hshort hc
    · rw [heq]
      exact ⟨rfl, rfl, fun _ => ⟨rfl, rfl, rfl⟩, fun hbad => absurd hbad (by omega)⟩
    · rw [heq]
      exact ⟨rfl, rfl, fun hgood => absurd hgood (by omega), fun _ => ⟨rfl, rfl⟩⟩
    · exact absurd hp0 hne
  · intro hp1
    rcases nextRound_cases g sh with ⟨hc, _⟩ | ⟨_, hp0, _, _⟩ | ⟨_, hp0, _, _⟩ | ⟨_, _, heq⟩
    · exact absurd hshort hc
    · omega
    · omega
    · rw [heq]
      exact ⟨rfl, rfl, rfl, rfl⟩
  · intro hre hph hsh hp0
    have hInv := reachable_inv hre
    have hex : phaseExtra g = g.n := by
      unfold phaseExtra
      simp [hph]
    have hcards := hInv.cards
    unfold cardCount at hcards
    rw [hex] at hcards
    have htl := hInv.tableLen
    have hn36 := hInv.nLe
    have hshlen : sh.length = g.discard.length := hsh.length_eq
    rcases nextRound_cases g sh with ⟨hc, _⟩ | ⟨_, _, _, heq⟩ | ⟨_, _, hlt, _⟩ | ⟨_, hne, _⟩
    · exact absurd hshort hc
    · rw [heq]
      rfl
    · omega
    · exact absurd hp0 hne

/-- First exhaustion: one card left for two seats, three cards in the
discard. -/
def c6WitGame : Game :=
  { players := [{ name := "A", scored := [], birdCards := 0 },
      { name := "B", scored := [], birdCards := 0 }],
    n := 2, deck := [mkCard 5 [] false],
    discard := [mkCard 1 [] false, mkCard 2 [] false, mkCard 3 [] false],
    table := [mkCard 1 [] false, mkCard 1 [] false], bets := [none, none],
    birdHolder := none, phase := .REVEAL, deckPass := 0, lastResult := none,
    isSolo := false, turnGen := 4, winnerIdx := none, finalScores := none }

theorem c6_deck_pass_witness :
    c6WitGame.deck.length < c6WitGame.n
    ∧ (nextRound c6WitGame c6WitGame.discard).deckPass = 1
    ∧ (nextRound c6WitGame c6WitGame.discard).phase = Phase.BETTING := by
  refine ⟨by decide, ?_, ?_⟩
  · exact ((c6_deck_pass c6WitGame c6WitGame.discard (by decide)).1 (by decide)).1
  · exact (((c6_deck_pass c6WitGame c6WitGame.discard (by decide)).1
      (by decide)).2.2.1 (by decide)).1

/-! ### Witnesses for C2 and C3, claims C9 and C10 -/

/-- A two-seat round in BETTING with both bids in distinct positions. -/
def c2WitGame : Game :=
  { players := [{ name := "A", scored := [], birdCards := 0 },
      { name := "B", scored := [], birdCards := 0 }],
    n := 2, deck := [], discard := [],
    table := [mkCard 2 [] false, mkCard 3 [] true], bets := [some 0, some 1],
    birdHolder := none, phase := .BETTING, deckPass := 0, lastResult := none,
    isSolo := false, turnGen := 0, winnerIdx := none, finalScores := none }

theorem c2_single_bidder_wins_witness :
    c2WitGame.bets.length ≤ c2WitGame.players.length
    ∧ ((∀ p s : Nat, (winnersOf (resolveRound c2WitGame)).getD p none = some s ↔
          betCount c2WitGame.bets p = 1 ∧ c2WitGame.bets[s]? = some (some p))
       ∧ (∀ s : Nat, ((resolveRound c2WitGame).players.getD s default).scored
          = (c2WitGame.players.getD s default).scored ++ wonCards c2WitGame s)) := by
  refine ⟨by decide, c2_single_bidder_wins c2WitGame (by decide) ?_⟩
  intro b hb v hv
  have ht : c2WitGame.table.length = 2 := rfl
  rcases List.mem_cons.mp hb with rfl | hb2
  · have hv0 : 0 = v := by simpa using hv
    omega
  · rcases List.mem_cons.mp hb2 with rfl | hb3
    · have hv1 : 1 = v := by simpa using hv
      omega
    · cases hb3

/-- A two-seat BETTING round whose table holds one bird card, nobody holding
the token and no bird cards collected yet. -/
def c3WitGame : Game :=
  { players := [{ name := "A", scored := [], birdCards := 0 },
      { name := "B", scored := [], birdCards := 0 }],
    n := 2, deck := [], discard := [],
    table := [mkCard 2 [] true, mkCard 1 [] false], bets := [some 0, some 1],
    birdHolder := none, phase := .BETTING, deckPass := 0, lastResult := none,
    isSolo := false, turnGen := 0, winnerIdx := none, finalScores := none }

theorem c3_bird_token_witness :
    c3WitGame.bets.length ≤ c3WitGame.players.length
    ∧ (eventsOf (resolveRound c3WitGame)).length ≤ 1 :=
  ⟨by decide,
   (c3_bird_token c3WitGame (by decide)
      (by
        intro _ s
        match s with
        | 0 => rfl
        | 1 => rfl
        | s + 2 => rfl)
      (fun H h => nomatch h)).1⟩

/-- C10: in every reachable session state the bets array has one slot per
seat, the table has n cards, and every stored bid is a position below n —
so resolveRound's betCount and betBySeat writes indexed by bid values stay
within their n-sized arrays. -/
theorem c10_bets_in_range {g : Game} (h : Reachable g) :
    g.bets.length = g.n
    ∧ g.table.length = g.n
    ∧ (∀ b ∈ g.bets, ∀ v, b = some v → v < g.n) := by
  have hInv := reachable_inv h
  exact ⟨hInv.betsLen, hInv.tableLen, hInv.betsRange⟩

/-- Mid-session state for the C10 witness: two seats, both bids placed and
the round already resolved. -/
def c10WitGame : Game :=
  betStep (betStep (newGame (["A", "B"]) BASE_DECK false) (some 0) (some 0)) (some 1) (some 1)

theorem c10_bets_in_range_witness :
    c10WitGame.bets.length = c10WitGame.n
    ∧ c10WitGame.table.length = c10WitGame.n
    ∧ (∀ b ∈ c10WitGame.bets, ∀ v, b = some v → v < c10WitGame.n) :=
  c10_bets_in_range
    (Reachable.step
      (Reachable.step
        (Reachable.init (["A", "B"]) BASE_DECK false (by decide) (by decide) (List.Perm.refl _))
        (Step.bet _ (some 0) (some 0)))
      (Step.bet _ (some 1) (some 1)))

/-! ### Lobby and reconnection layer -/

/-- Per-connection state (the wsState WeakMap entry in server.js).
findGameSeat's -1 result makes gameSeat an integer. -/
structure WsSt where
  lobbyId : String
  seat : Nat
  gameSeat : Int
  token : String
deriving DecidableEq, Repr

/-- A lobby (makeLobby in server.js).  Connections are opaque numeric ids;
liveness (readyState === 1) is supplied per call as a predicate.  A timer
slot holds whether a timer handle is pending; the epoch captured by a
deferred action is carried by the Deferred records below.  sid identifies
the current game object, so that a stale closure over a replaced game can be
told apart from the live one. -/
structure Lobby where
  id : String
  lname : String
  solo : Bool
  maxHuman : Nat
  players : List (Option Nat)
  names : List String
  tokens : List (Option String)
  graceTimers : List Bool
  autoTimers : List Bool
  seatMap : Option (List Nat)
  game : Option Game
  sid : Nat
deriving DecidableEq, Repr

/-- A sessions-map entry (sessions[token] in server.js). -/
structure Sess where
  lobbyId : String
  seat : Nat
  name : String
deriving DecidableEq, Repr

/-- The server-global state touched by reconnection. -/
structure Server where
  sessions : List (String × Sess)
  lobbies : List (String × Lobby)
  wsState : List (Nat × WsSt)
deriving DecidableEq, Repr

/-- JavaScript Array.prototype.indexOf: index of the first occurrence, -1
when absent. -/
def jsIndexOf (l : List Nat) (x : Nat) : Int :=
  match l.findIdx? (fun y => y == x) with
  | some i => (i : Int)
  | none => -1

def setLobbyIn (st : Server) (id : String) (l : Lobby) : Server :=
  { st with lobbies := st.lobbies.map (fun p => if p.1 = id then (id, l) else p) }

/-- wsState.set(ws, ...): bind (or rebind) the connection's record. -/
def setWsState (st : Server) (ws : Nat) (w : WsSt) : Server :=
  { st with wsState := (ws, w) :: st.wsState.filter (fun p => p.1 != ws) }

/-- The always-performed seat restoration of a successful reconnect: cancel
the grace timer, rebind the connection, restore the display name. -/
def reconnectBase (lobby : Lobby) (seat : Nat) (name : String) (ws : Nat) : Lobby :=
  { lobby with
    graceTimers := lobby.graceTimers.set seat false,
    players := lobby.players.set seat (some ws),
    names := lobby.names.set seat name }

/-- The lobby after a successful reconnect: the seat restoration above, plus
clearing the seat's auto-bid timer — but only when the lobby's game is a
non-solo session in BETTING (the condition in handleReconnect). -/
def reconnectLobby (lobby : Lobby) (seat : Nat) (name : String) (ws : Nat) : Lobby :=
  match lobby.game with
  | some g =>
    if !g.isSolo && (g.phase == Phase.BETTING) then
      { reconnectBase lobby seat name ws with
        autoTimers := lobby.autoTimers.set seat false }
    else reconnectBase lobby seat name ws
  | none => reconnectBase lobby seat name ws

/-- handleReconnect in server.js.  ready models readyState === 1 per
connection id.  Rejected when the token is unknown, the lobby is gone, or
another live connection occupies the seat; otherwise the seat is restored
via reconnectLobby, the wsState binding is rebuilt and the game is left
untouched. -/
def handleReconnect (st : Server) (ws : Nat) (ready : Nat → Bool) (token : String) :
    Server × List OutMsg :=
  match st.sessions.lookup token with
  | none => (st, [.reconnectFail])
  | some sess =>
    match st.lobbies.lookup sess.lobbyId with
    | none => (st, [.reconnectFail])
    | some lobby =>
      if (match lobby.players.getD sess.seat none with
          | some e => e != ws && ready e
          | none => false) then
        (st, [.reconnectFail])
      else
        let gs : Int := match lobby.seatMap with
          | none => (sess.seat : Int)
          | some m => jsIndexOf m sess.seat
        let st1 := setWsState
          (setLobbyIn st sess.lobbyId (reconnectLobby lobby sess.seat sess.name ws)) ws
          { lobbyId := sess.lobbyId, seat := sess.seat, gameSeat := gs, token := token }
        (st1, [.reconnected])

theorem reconnectLobby_players (lobby : Lobby) (seat : Nat) (name : String) (ws : Nat) :
    (reconnectLobby lobby seat name ws).players = lobby.players.set seat (some ws) := by
  unfold reconnectLobby reconnectBase
  cases lobby.game
  · rfl
  · split <;> (try split) <;> rfl

theorem reconnectLobby_grace (lobby : Lobby) (seat : Nat) (name : String) (ws : Nat) :
    (reconnectLobby lobby seat name ws).graceTimers = lobby.graceTimers.set seat false := by
  unfold reconnectLobby reconnectBase
  cases lobby.game
  · rfl
  · split <;> (try split) <;> rfl

theorem reconnectLobby_game (lobby : Lobby) (seat : Nat) (name : String) (ws : Nat) :
    (reconnectLobby lobby seat name ws).game = lobby.game := by
  unfold reconnectLobby reconnectBase
  cases lobby.game
  · rfl
  · split <;> (try split) <;> rfl

theorem reconnectLobby_seatMap (lobby : Lobby) (seat : Nat) (name : String) (ws : Nat) :
    (reconnectLobby lobby seat name ws).seatMap = lobby.seatMap := by
  unfold reconnectLobby reconnectBase
  cases lobby.game
  · rfl
  · split <;> (try split) <;> rfl

theorem reconnectLobby_auto (lobby : Lobby) (seat : Nat) (name : String) (ws : Nat)
    (g : Game) (hg : lobby.game = some g) (hsolo : g.isSolo = false)
    (hph : g.phase = Phase.BETTING) :
    (reconnectLobby lobby seat name ws).autoTimers = lobby.autoTimers.set seat false := by
  unfold reconnectLobby
  simp only [hg]
  rw [if_pos (by simp [hsolo, hph])]

/-- The token resolves to no session. -/
def tokenUnknown (st : Server) (token : String) : Prop :=
  st.sessions.lookup token = none

/-- The token's lobby no longer exists. -/
def tableGone (st : Server) (token : String) : Prop :=
  ∃ sess, st.sessions.lookup token = some sess ∧ st.lobbies.lookup sess.lobbyId = none

/-- The token's seat is occupied by a live connection other than the
requesting one. -/
def seatHeldLive (st : Server) (ws : Nat) (ready : Nat → Bool) (token : String) : Prop :=
  ∃ sess lobby, st.sessions.lookup token = some sess
    ∧ st.lobbies.lookup sess.lobbyId = some lobby
    ∧ ∃ e, lobby.players.getD sess.seat none = some e ∧ e ≠ ws ∧ ready e = true

theorem lookup_replace {l : List (String × Lobby)} {id : String} {nl old : Lobby}
    (h : l.lookup id = some old) :
    (l.map (fun p => if p.1 = id then (id, nl) else p)).lookup id = some nl := by
  induction l with
  | nil => simp [List.lookup] at h
  | cons p rest ih =>
    obtain ⟨k, v⟩ := p
    by_cases hp : k = id
    · subst hp
      have hh : List.map (fun p : String × Lobby => if p.1 = k then (k, nl) else p)
            ((k, v) :: rest)
          = (k, nl) :: List.map (fun p => if p.1 = k then (k, nl) else p) rest := by
        rw [List.map_cons, if_pos rfl]
      rw [hh]
      simp [List.lookup]
    · have hne2 : (id == k) = false := by
        simp only [beq_eq_false_iff_ne]
        exact fun hx => hp hx.symm
      simp only [List.lookup, hne2] at h
      simp only [List.map]
      rw [if_neg hp]
      simp only [List.lookup, hne2]
      exact ih h

theorem getD_set_false (l : List Bool) (i : Nat) :
    (l.set i false).getD i false = false := by
  by_cases h : i < l.length
  · exact getD_set_self _ _ _ _ h
  · rw [List.set_eq_of_length_le (by omega), List.getD_eq_getElem?_getD,
      List.getElem?_eq_none (by omega)]
    rfl

/-- C7 (amended): reconnect replies RECONNECT_FAIL and changes nothing
exactly when the token is unknown, the token's lobby is gone, or a live
connection other than the requester holds the seat.  On success the
connection is rebound, the grace timer is cancelled, the game (bids and
scored piles) and the seat map are untouched, and the seat's auto-bid timer
is cancelled when the game is a non-solo session in BETTING — the only phase
in which such a timer can still fire; a timer pending in another phase is
left in place. -/
theorem c7_reconnect (st : Server) (ws : Nat) (ready : Nat → Bool) (token : String) :
    (handleReconnect st ws ready token = (st, [OutMsg.reconnectFail])
      ↔ (tokenUnknown st token ∨ tableGone st token ∨ seatHeldLive st ws ready token))
    ∧ (handleReconnect st ws ready token).1.sessions = st.sessions
    ∧ (∀ sess lobby, st.sessions.lookup token = some sess →
        st.lobbies.lookup sess.lobbyId = some lobby →
        ¬ seatHeldLive st ws ready token →
        sess.seat < lobby.players.length →
        ∃ l2, (handleReconnect st ws ready token).1.lobbies.lookup sess.lobbyId = some l2
          ∧ l2.players.getD sess.seat none = some ws
          ∧ l2.graceTimers.getD sess.seat false = false
          ∧ l2.game = lobby.game
          ∧ l2.seatMap = lobby.seatMap
          ∧ (∀ g, lobby.game = some g → g.isSolo = false → g.phase = Phase.BETTING →
              l2.autoTimers.getD sess.seat false = false)) := by
  rcases hs : st.sessions.lookup token with _ | sess
  · have hred : handleReconnect st ws ready token = (st, [OutMsg.reconnectFail]) := by
      simp only [handleReconnect, hs]
    rw [hred]
    refine ⟨⟨fun _ => Or.inl hs, fun _ => rfl⟩, rfl, ?_⟩
    intro sess lobby hs2 _ _ _
    cases hs2
  · rcases hl : st.lobbies.lookup sess.lobbyId with _ | lobby
    · have hred : handleReconnect st ws ready token = (st, [OutMsg.reconnectFail]) := by
        simp only [handleReconnect, hs, hl]
      rw [hred]
      refine ⟨⟨fun _ => Or.inr (Or.inl ⟨sess, hs, hl⟩), fun _ => rfl⟩, rfl, ?_⟩
      intro sess' lobby' hs2 hl2 _ _
      obtain rfl : sess = sess' := Option.some.inj hs2
      rw [hl] at hl2
      cases hl2
    · by_cases hg : (match lobby.players.getD sess.seat none with
          | some e => e != ws && ready e
          | none => false) = true
      · have hlive : seatHeldLive st ws ready token := by
          rcases hx : lobby.players.getD sess.seat none with _ | e
          · rw [hx] at hg
            cases hg
          · rw [hx] at hg
            have hand : (e != ws) = true ∧ ready e = true := by simpa using hg
            have h1 : e ≠ ws := by simpa [bne_iff_ne] using hand.1
            exact ⟨sess, lobby, hs, hl, e, hx, h1, hand.2⟩
        have hred : handleReconnect st ws ready token = (st, [OutMsg.reconnectFail]) := by
          simp only [handleReconnect, hs, hl]
          rw [if_pos hg]
        rw [hred]
        refine ⟨⟨fun _ => Or.inr (Or.inr hlive), fun _ => rfl⟩, rfl, ?_⟩
        intro sess' lobby' _ _ hnl _
        exact absurd hlive hnl
      · have hred : handleReconnect st ws ready token
            = (setWsState
                (setLobbyIn st sess.lobbyId (reconnectLobby lobby sess.seat sess.name ws)) ws
                { lobbyId := sess.lobbyId, seat := sess.seat,
                  gameSeat := match lobby.seatMap with
                    | none => (sess.seat : Int)
                    | some m => jsIndexOf m sess.seat,
                  token := token }, [OutMsg.reconnected]) := by
          simp only [handleReconnect, hs, hl]
          rw [if_neg hg]
        rw [hred]
        refine ⟨?_, rfl, ?_⟩
        · constructor
          · intro hfail
            have hsnd := congrArg Prod.snd hfail
            simp at hsnd
          · intro hcase
            exfalso
            rcases hcase with hu | ⟨sess', hs', hl'⟩ | ⟨sess', lobby', hs', hl', e, he, hne, hrdy⟩
            · have hu' : st.sessions.lookup token = none := hu
              rw [hs] at hu'
              cases hu'
            · rw [hs] at hs'
              obtain rfl : sess = sess' := Option.some.inj hs'
              rw [hl] at hl'
              cases hl'
            · rw [hs] at hs'
              obtain rfl : sess = sess' := Option.some.inj hs'
              rw [hl] at hl'
              obtain rfl : lobby = lobby' := Option.some.inj hl'
              apply hg
              rw [he]
              simp [bne_iff_ne, hne, hrdy]
        · intro sess' lobby' hs2 hl2 _ hlt
          obtain rfl : sess = sess' := Option.some.inj hs2
          rw [hl] at hl2
          obtain rfl : lobby = lobby' := Option.some.inj hl2
          refine ⟨reconnectLobby lobby sess.seat sess.name ws, lookup_replace hl,
            ?_, ?_, reconnectLobby_game _ _ _ _, reconnectLobby_seatMap _ _ _ _, ?_⟩
          · rw [reconnectLobby_players]
            exact getD_set_self _ _ _ _ hlt
          · rw [reconnectLobby_grace]
            exact getD_set_false _ _
          · intro g hgm hsolo hph
            rw [reconnectLobby_auto lobby sess.seat sess.name ws g hgm hsolo hph]
            exact getD_set_false _ _

/-- A finished (GAME_OVER) non-solo session: seat 0 disconnected during
BETTING with no bid placed, so its auto-bid timer is still pending; the game
was then force-ended.  Reconnecting now succeeds but does not clear that
timer. -/
def c7CexGame : Game :=
  { players := [{ name := "Ana", scored := [], birdCards := 0 },
      { name := "Rui", scored := [], birdCards := 0 }],
    n := 2, deck := [], discard := [],
    table := [mkCard 2 [] false, mkCard 3 [] true], bets := [none, some 1],
    birdHolder := none, phase := .GAME_OVER, deckPass := 0, lastResult := none,
    isSolo := false, turnGen := 2, winnerIdx := some 0, finalScores := none }

def c7CexLobby : Lobby :=
  { id := "mp1", lname := "Mesa 1", solo := false, maxHuman := 6,
    players := [none, some 7], names := ["Ana", "Rui"],
    tokens := [some "tokA", some "tokB"],
    graceTimers := [true, false], autoTimers := [true, false],
    seatMap := some [0, 1], game := some c7CexGame, sid := 0 }

def c7CexServer : Server :=
  { sessions := [("tokA", { lobbyId := "mp1", seat := 0, name := "Ana" })],
    lobbies := [("mp1", c7CexLobby)], wsState := [] }

/-- Variant for the self-connection edge: the seat's bound connection is the
reconnecting one itself and is live. -/
def c7CexLobby2 : Lobby :=
  { id := "mp1", lname := "Mesa 1", solo := false, maxHuman := 6,
    players := [some 5, some 7], names := ["Ana", "Rui"],
    tokens := [some "tokA", some "tokB"],
    graceTimers := [false, false], autoTimers := [false, false],
    seatMap := some [0, 1], game := none, sid := 0 }

def c7CexServer2 : Server :=
  { sessions := [("tokA", { lobbyId := "mp1", seat := 0, name := "Ana" })],
    lobbies := [("mp1", c7CexLobby2)], wsState := [] }

/-- C7 as written is false on two points: (a) a successful reconnect into a
GAME_OVER session leaves the seat's pending auto-bid timer in place, so
reconnection does not cancel any pending auto-bid timer; (b) when the live
connection bound to the seat is the requester itself, reconnect succeeds
even though the seat has a live connection bound. -/
theorem c7_counterexample :
    ((handleReconnect c7CexServer 5 (fun _ => true) "tokA").2 ≠ [OutMsg.reconnectFail]
      ∧ ((handleReconnect c7CexServer 5 (fun _ => true) "tokA").1.lobbies.lookup
          "mp1").map (fun l => l.autoTimers.getD 0 false) = some true)
    ∧ ((handleReconnect c7CexServer2 5 (fun _ => true) "tokA").2 ≠ [OutMsg.reconnectFail]
      ∧ c7CexLobby2.players.getD 0 none = some 5
      ∧ (fun (_ : Nat) => true) 5 = true) := by
  refine ⟨⟨?_, ?_⟩, ⟨?_, ?_, ?_⟩⟩ <;> decide

def c7WitLobby : Lobby :=
  { id := "mp1", lname := "Mesa 1", solo := false, maxHuman := 6,
    players := [none, some 7], names := ["Ana", "Rui"],
    tokens := [some "tokA", some "tokB"],
    graceTimers := [true, false], autoTimers := [true, false],
    seatMap := some [0, 1], game := none, sid := 0 }

def c7WitServer : Server :=
  { sessions := [("tokA", { lobbyId := "mp1", seat := 0, name := "Ana" })],
    lobbies := [("mp1", c7WitLobby)], wsState := [] }

theorem c7_reconnect_witness :
    ∃ l2, (handleReconnect c7WitServer 5 (fun _ => true) "tokA").1.lobbies.lookup "mp1"
        = some l2
      ∧ l2.players.getD 0 none = some 5
      ∧ l2.graceTimers.getD 0 false = false
      ∧ l2.game = c7WitLobby.game
      ∧ l2.seatMap = c7WitLobby.seatMap
      ∧ (∀ g, c7WitLobby.game = some g → g.isSolo = false → g.phase = Phase.BETTING →
          l2.autoTimers.getD 0 false = false) :=
  (c7_reconnect c7WitServer 5 (fun _ => true) "tokA").2.2
    { lobbyId := "mp1", seat := 0, name := "Ana" } c7WitLobby (by decide) (by decide)
    (by
      rintro ⟨sess, lobby, hs, hl, e, he, hne, hrdy⟩
      have h2 : c7WitServer.sessions.lookup "tokA"
          = some ({ lobbyId := "mp1", seat := 0, name := "Ana" } : Sess) := by decide
      rw [h2] at hs
      obtain rfl : ({ lobbyId := "mp1", seat := 0, name := "Ana" } : Sess) = sess :=
        Option.some.inj hs
      have h3 : c7WitServer.lobbies.lookup "mp1" = some c7WitLobby := by decide
      rw [h3] at hl
      obtain rfl : c7WitLobby = lobby := Option.some.inj hl
      have hnone : c7WitLobby.players.getD 0 none = (none : Option Nat) := rfl
      rw [hnone] at he
      cases he)
    (by decide)

/-! ### Epoch-fenced deferred actions -/

/-- The three kinds of deferred actions the server schedules. -/
inductive DeferredKind
  | revealAdvance
  | botBid (bot : Nat)
  | autoBid (gs : Nat)
deriving DecidableEq, Repr

/-- A scheduled deferred action: its kind, the turnGen captured when it was
scheduled, and the identity of the game object its closure captured. -/
structure Deferred where
  kind : DeferredKind
  gen : Nat
  sid : Nat
deriving DecidableEq, Repr

/-- The phase each deferred action re-checks before acting. -/
def expectedPhase : DeferredKind → Phase
  | .revealAdvance => .REVEAL
  | .botBid _ => .BETTING
  | .autoBid _ => .BETTING

/-- The reveal-to-next-round timer scheduled at the end of resolveRound; it
captures the (already incremented) turnGen of the resolved game. -/
def scheduleReveal (lobby : Lobby) (g : Game) : Deferred :=
  { kind := .revealAdvance, gen := g.turnGen, sid := lobby.sid }

/-- The bot timers scheduled by scheduleBots: one per bot seat (1 and 2)
without a bid, when the game is the solo session in BETTING. -/
def scheduleBotsD (lobby : Lobby) (g : Game) : List Deferred :=
  if g.isSolo = true ∧ g.phase = Phase.BETTING then
    ([1, 2].filter (fun b => !(g.bets.getD b none).isSome)).map
      (fun b => { kind := .botBid b, gen := g.turnGen, sid := lobby.sid })
  else []

/-- The auto-bid timers scheduled by scheduleAutoBeats: one per seat of the
seat map whose lobby slot is disconnected and whose bid is missing, for
non-solo sessions. -/
def scheduleAutosD (lobby : Lobby) (g : Game) : List Deferred :=
  if g.isSolo = false then
    match lobby.seatMap with
    | some m =>
      (m.enum.filter (fun p =>
          !(lobby.players.getD p.2 none).isSome && !(g.bets.getD p.1 none).isSome)).map
        (fun p => { kind := .autoBid p.1, gen := g.turnGen, sid := lobby.sid })
    | none => []
  else []

/-- Lobby-level checkAllBetsIn: on resolution, resolveRound also clears all
pending auto-bid timer handles of the lobby. -/
def checkAllBetsInL (lobby : Lobby) (g : Game) : Lobby :=
  if g.phase = Phase.BETTING ∧ g.bets.all (fun b => b.isSome) then
    { lobby with
      game := some (resolveRound g),
      autoTimers := lobby.autoTimers.map (fun _ => false) }
  else { lobby with game := some g }

/-- Firing a deferred action (the setTimeout callbacks in resolveRound,
scheduleBots, scheduleAutoBeats and the close handler).  Each first checks
that a session exists, that its turnGen equals the captured epoch, and that
the phase is the expected one, and otherwise does nothing.  sh, rnd and r
are the randomness consumed when the action does run.  When the action's
captured game object is not the current one (sid mismatch after a restart
that happens to reuse the same turnGen and phase), its write lands on the
dead object: the live game is not modified beyond the checkAllBetsIn
re-examination the callback performs. -/
def fire (lobby : Lobby) (d : Deferred) (sh : List Card) (rnd : BotRnd) (r : Nat) : Lobby :=
  match lobby.game with
  | none => lobby
  | some g =>
    if g.turnGen ≠ d.gen then lobby
    else if g.phase ≠ expectedPhase d.kind then lobby
    else
      match d.kind with
      | .revealAdvance => { lobby with game := some (nextRound g sh) }
      | .botBid b =>
        if (g.bets.getD b none).isSome then lobby
        else if d.sid = lobby.sid then
          checkAllBetsInL lobby { g with bets := g.bets.set b (some (botChoose g b rnd)) }
        else checkAllBetsInL lobby g
      | .autoBid gs =>
        if (g.bets.getD gs none).isSome then lobby
        else if d.sid = lobby.sid then
          checkAllBetsInL lobby { g with bets := g.bets.set gs (some r) }
        else checkAllBetsInL lobby g

/-- C8: every deferred action captures turnGen at schedule time, and firing
performs no mutation unless the session still exists, its turnGen equals
the captured epoch and its phase is the expected one; in particular an
action whose epoch the session has advanced past mutates nothing. -/
theorem c8_epoch_fencing (lobby : Lobby) (d : Deferred) (sh : List Card)
    (rnd : BotRnd) (r : Nat) (g : Game) :
    (scheduleReveal lobby g).gen = g.turnGen
    ∧ (∀ d2 ∈ scheduleBotsD lobby g, d2.gen = g.turnGen)
    ∧ (∀ d2 ∈ scheduleAutosD lobby g, d2.gen = g.turnGen)
    ∧ (lobby.game = none → fire lobby d sh rnd r = lobby)
    ∧ (∀ g2, lobby.game = some g2 → g2.turnGen ≠ d.gen → fire lobby d sh rnd r = lobby)
    ∧ (∀ g2, lobby.game = some g2 → g2.phase ≠ expectedPhase d.kind →
        fire lobby d sh rnd r = lobby)
    ∧ (∀ g2, lobby.game = some g2 → d.gen < g2.turnGen → fire lobby d sh rnd r = lobby) := by
  have hbots : ∀ d2 ∈ scheduleBotsD lobby g, d2.gen = g.turnGen := by
    intro d2 hd2
    unfold scheduleBotsD at hd2
    by_cases hc : g.isSolo = true ∧ g.phase = Phase.BETTING
    · rw [if_pos hc] at hd2
      rcases List.mem_map.mp hd2 with ⟨b, _, hb⟩
      rw [← hb]
    · rw [if_neg hc] at hd2
      cases hd2
  have hautos : ∀ d2 ∈ scheduleAutosD lobby g, d2.gen = g.turnGen := by
    intro d2 hd2
    unfold scheduleAutosD at hd2
    by_cases hc : g.isSolo = false
    · rw [if_pos hc] at hd2
      rcases hm : lobby.seatMap with _ | m
      · rw [hm] at hd2
        cases hd2
      · rw [hm] at hd2
        rcases List.mem_map.mp hd2 with ⟨p, _, hp⟩
        rw [← hp]
    · rw [if_neg hc] at hd2
      cases hd2
  have hnone : lobby.game = none → fire lobby d sh rnd r = lobby := by
    intro hgn
    unfold fire
    simp only [hgn]
  have hgen : ∀ g2, lobby.game = some g2 → g2.turnGen ≠ d.gen →
      fire lobby d sh rnd r = lobby := by
    intro g2 hg2 hne
    unfold fire
    simp only [hg2]
    rw [if_pos hne]
  have hphase : ∀ g2, lobby.game = some g2 → g2.phase ≠ expectedPhase d.kind →
      fire lobby d sh rnd r = lobby := by
    intro g2 hg2 hph
    unfold fire
    simp only [hg2]
    by_cases hne : g2.turnGen ≠ d.gen
    · rw [if_pos hne]
    · rw [if_neg hne, if_pos hph]
  exact ⟨rfl, hbots, hautos, hnone, hgen, hphase,
    fun g2 hg2 hlt => hgen g2 hg2 (by omega)⟩

/-- A lobby whose session has advanced to epoch 5 while a deferred reveal
transition from epoch 3 is still queued. -/
def c8WitGame : Game :=
  { players := [{ name := "A", scored := [], birdCards := 0 },
      { name := "B", scored := [], birdCards := 0 }],
    n := 2, deck := [], discard := [],
    table := [mkCard 2 [] false, mkCard 3 [] true], bets := [none, none],
    birdHolder := none, phase := .REVEAL, deckPass := 0, lastResult := none,
    isSolo := false, turnGen := 5, winnerIdx := none, finalScores := none }

def c8WitLobby : Lobby :=
  { id := "mp1", lname := "Mesa 1", solo := false, maxHuman := 6,
    players := [some 5, some 7], names := ["Ana", "Rui"],
    tokens := [some "tokA", some "tokB"],
    graceTimers := [false, false], autoTimers := [false, false],
    seatMap := some [0, 1], game := some c8WitGame, sid := 0 }

def c8WitDeferred : Deferred :=
  { kind := .revealAdvance, gen := 3, sid := 0 }

theorem c8_epoch_fencing_witness :
    fire c8WitLobby c8WitDeferred [] { noise := [], topChoice := true } 0 = c8WitLobby :=
  (c8_epoch_fencing c8WitLobby c8WitDeferred [] { noise := [], topChoice := true } 0
      c8WitGame).2.2.2.2.2.2 c8WitGame rfl (by decide)

end Capivaras

